import Mathlib

/-!
Verification of the mod-flow.nvim cursor-anchored AST transformation engine.

The TypeScript/Lua sources are shallowly embedded: syntax-tree nodes become an
inductive tree type, positions use `Int` line/column coordinates (JS numbers on
the reachable inputs), node text and source lines are `List Char`, handlers
become total Lean functions returning `Except`/`Option` results, and the
external parser (ast-grep / tree-sitter) is abstracted by passing the parsed
tree, the query results, or the resolved node explicitly as arguments.
-/

namespace ModFlow

/-- A zero-based `{line, column}` position (src/server/utils.ts `Cursor`,
and the `start`/`end` members of node ranges). -/
structure Pos where
  line : Int
  column : Int
deriving DecidableEq, Repr

/-- A node range `{start, end}`; the TS field `end` is spelled `stop` here
because `end` is a Lean keyword. -/
structure Range where
  start : Pos
  stop : Pos
deriving DecidableEq, Repr

/-- An ast-grep syntax node as the engine observes it: `kind()`, `range()`,
`text()` and `children()`.  Parent navigation is represented where needed by
passing the chain of ancestors (innermost first) alongside a node. -/
inductive SgNode where
  | mk (kind : String) (range : Range) (text : List Char) (children : List SgNode)
deriving Repr

def SgNode.kind : SgNode → String
  | .mk k _ _ _ => k

def SgNode.range : SgNode → Range
  | .mk _ r _ _ => r

def SgNode.text : SgNode → List Char
  | .mk _ _ t _ => t

def SgNode.children : SgNode → List SgNode
  | .mk _ _ _ c => c

/-- Embeds `cursorContains` from src/server/index.ts (lines 13-28): the
containment test used by the move mod for operand/branch/item membership.
Note `range.end.column >= column`: the end position is treated as contained. -/
def cursorContains (range : Range) (line column : Int) : Bool :=
  let afterStart :=
    decide (range.start.line < line) ||
      (decide (range.start.line = line) && decide (range.start.column ≤ column))
  let beforeEnd :=
    decide (range.stop.line > line) ||
      (decide (range.stop.line = line) && decide (range.stop.column ≥ column))
  afterStart && beforeEnd

/-- Embeds the containment test inlined in `findClosestNodeAtCursor`
(src/server/utils.ts lines 37-43): `withinLineRange && withinStartCol &&
withinEndCol`.  Note `cursor.column <= end.column`: end-inclusive. -/
def withinRange (range : Range) (cursor : Pos) : Bool :=
  let withinLineRange :=
    decide (cursor.line ≥ range.start.line) && decide (cursor.line ≤ range.stop.line)
  let withinStartCol :=
    decide (cursor.line > range.start.line) || decide (cursor.column ≥ range.start.column)
  let withinEndCol :=
    decide (cursor.line < range.stop.line) || decide (cursor.column ≤ range.stop.column)
  withinLineRange && withinStartCol && withinEndCol

/-- Embeds the containment test of `findDeepest` inside `findNodeUnderCursor`
(src/unnamed/part_004 lines 31-38).  Note `range.end.column > column`: the end
position is excluded, i.e. this one really is half-open. -/
def deepContains (range : Range) (line column : Int) : Bool :=
  let afterStart :=
    decide (range.start.line < line) ||
      (decide (range.start.line = line) && decide (range.start.column ≤ column))
  let beforeEnd :=
    decide (range.stop.line > line) ||
      (decide (range.stop.line = line) && decide (range.stop.column > column))
  afterStart && beforeEnd

/-- Lexicographic `(line, column)` order on positions, ≤ variant. -/
def posLE (p q : Pos) : Prop :=
  p.line < q.line ∨ (p.line = q.line ∧ p.column ≤ q.column)

/-- Lexicographic `(line, column)` order on positions, strict variant. -/
def posLT (p q : Pos) : Prop :=
  p.line < q.line ∨ (p.line = q.line ∧ p.column < q.column)

instance (p q : Pos) : Decidable (posLE p q) := by unfold posLE; infer_instance
instance (p q : Pos) : Decidable (posLT p q) := by unfold posLT; infer_instance

/-- Follows the spec's words: half-open containment, start-inclusive and
end-exclusive. -/
def specHalfOpenContains (r : Range) (p : Pos) : Prop :=
  posLE r.start p ∧ posLT p r.stop

/-- Closed containment: start-inclusive and end-inclusive. -/
def specClosedContains (r : Range) (p : Pos) : Prop :=
  posLE r.start p ∧ posLE p r.stop

instance (r : Range) (p : Pos) : Decidable (specHalfOpenContains r p) := by
  unfold specHalfOpenContains; infer_instance
instance (r : Range) (p : Pos) : Decidable (specClosedContains r p) := by
  unfold specClosedContains; infer_instance

/-- A concrete single-line range used as counterexample input for C1. -/
def cexRangeC1 : Range := ⟨⟨0, 0⟩, ⟨0, 3⟩⟩

/-- C1 counterexample: at the point `(0,3)`, which is exactly the end of the
range `(0,0)-(0,3)`, both `cursorContains` (the move mod's membership test) and
`withinRange` (closest-node-among's test) report containment, although a
half-open test must reject a point equal to the range end. -/
theorem cursorContainsEndPointCounterexample :
    cursorContains cexRangeC1 0 3 = true ∧
    withinRange cexRangeC1 ⟨0, 3⟩ = true ∧
    ¬ specHalfOpenContains cexRangeC1 ⟨0, 3⟩ := by
  decide

/-- `withinRange` is exactly closed lexicographic containment. -/
theorem withinRange_iff_closed (r : Range) (p : Pos) :
    withinRange r p = true ↔ specClosedContains r p := by
  simp only [withinRange, specClosedContains, posLE, Bool.and_eq_true,
    Bool.or_eq_true, decide_eq_true_eq]
  omega

/-- `cursorContains` is exactly closed lexicographic containment. -/
theorem cursorContains_iff_closed (r : Range) (line column : Int) :
    cursorContains r line column = true ↔ specClosedContains r ⟨line, column⟩ := by
  simp only [cursorContains, specClosedContains, posLE, Bool.and_eq_true,
    Bool.or_eq_true, decide_eq_true_eq]
  omega

/-- `deepContains` is exactly half-open lexicographic containment. -/
theorem deepContains_iff_halfOpen (r : Range) (line column : Int) :
    deepContains r line column = true ↔ specHalfOpenContains r ⟨line, column⟩ := by
  simp only [deepContains, specHalfOpenContains, posLE, posLT, Bool.and_eq_true,
    Bool.or_eq_true, decide_eq_true_eq]
  omega

/-- C1 amended: the point-containment conventions actually used are mixed, not
uniformly half-open.  The deepest-node-at-point descent (`findDeepest`) is
half-open (start-inclusive, end-exclusive), while the move mod's
operand/branch/item membership test (`cursorContains`) and the
closest-node-among containment test (`withinRange`) are closed
(start-inclusive, end-inclusive); the two closed tests agree at every input. -/
theorem containmentConventions (r : Range) (line column : Int) :
    (deepContains r line column = true ↔ specHalfOpenContains r ⟨line, column⟩) ∧
    (cursorContains r line column = true ↔ specClosedContains r ⟨line, column⟩) ∧
    (withinRange r ⟨line, column⟩ = true ↔ specClosedContains r ⟨line, column⟩) :=
  ⟨deepContains_iff_halfOpen r line column, cursorContains_iff_closed r line column,
    withinRange_iff_closed r ⟨line, column⟩⟩

/-- Embeds the weighted size metric of `findClosestNodeAtCursor`
(src/server/utils.ts lines 44-45): `(end.line - start.line) * 1000 +
(end.column - start.column)`. -/
def rangeSize (range : Range) : Int :=
  (range.stop.line - range.start.line) * 1000 + (range.stop.column - range.start.column)

/-- The `rangeSize < smallestRange` comparison of the loop; `none` plays the
role of the `Infinity` initial value. -/
def ltSmallest (x : Int) : Option Int → Bool
  | none => true
  | some s => decide (x < s)

/-- The loop of `findClosestNodeAtCursor` (src/server/utils.ts lines 32-52),
with the two mutable locals `closestNode` and `smallestRange` threaded as
accumulators. -/
def findClosestGo (cursor : Pos) :
    List SgNode → Option SgNode → Option Int → Option SgNode
  | [], closestNode, _ => closestNode
  | mtch :: rest, closestNode, smallestRange =>
    if withinRange mtch.range cursor then
      if ltSmallest (rangeSize mtch.range) smallestRange then
        findClosestGo cursor rest (some mtch) (some (rangeSize mtch.range))
      else
        findClosestGo cursor rest closestNode smallestRange
    else
      findClosestGo cursor rest closestNode smallestRange

/-- Embeds `findClosestNodeAtCursor` from src/server/utils.ts (an identical
copy is in src/unnamed/part_007 lines 26-53). -/
def findClosestNodeAtCursor (nodes : List SgNode) (cursor : Pos) : Option SgNode :=
  findClosestGo cursor nodes none none

/-- Loop invariant for `findClosestGo` on a coupled accumulator (the size
accumulator is exactly the size of the accumulated node): the result is `none`
iff the accumulator is empty and nothing in the list passes the containment
test; a `some` result is either the untouched accumulator (nothing in the list
strictly improving on it) or the first containing element of minimal weighted
size that strictly improves on the accumulator. -/
theorem findClosestGo_spec (l : List SgNode) (cursor : Pos) (acc : Option SgNode) :
    (findClosestGo cursor l acc (acc.map (fun a => rangeSize a.range)) = none ↔
      (acc = none ∧ ∀ m ∈ l, withinRange m.range cursor = false)) ∧
    (∀ n, findClosestGo cursor l acc (acc.map (fun a => rangeSize a.range)) = some n →
      (acc = some n ∧ ∀ m ∈ l, withinRange m.range cursor = true →
          rangeSize n.range ≤ rangeSize m.range) ∨
      (∃ i, l.get? i = some n ∧ withinRange n.range cursor = true ∧
        (∀ a, acc = some a → rangeSize n.range < rangeSize a.range) ∧
        (∀ j, j < i → ∀ m, l.get? j = some m → withinRange m.range cursor = true →
          rangeSize n.range < rangeSize m.range) ∧
        (∀ m ∈ l, withinRange m.range cursor = true →
          rangeSize n.range ≤ rangeSize m.range))) := by
  induction l generalizing acc with
  | nil =>
    refine ⟨by cases acc <;> simp [findClosestGo], ?_⟩
    intro n h
    simp only [findClosestGo] at h
    exact Or.inl ⟨h, by simp⟩
  | cons m rest ih =>
    by_cases hw : withinRange m.range cursor = true
    · by_cases himp : ltSmallest (rangeSize m.range) (acc.map (fun a => rangeSize a.range)) = true
      · -- containing head that strictly improves the accumulator
        have hrec := ih (some m)
        simp only [Option.map_some'] at hrec
        have hstep : findClosestGo cursor (m :: rest) acc
              (acc.map (fun a => rangeSize a.range))
            = findClosestGo cursor rest (some m) (some (rangeSize m.range)) := by
          simp [findClosestGo, hw, himp]
        refine ⟨?_, ?_⟩
        · rw [hstep]
          constructor
          · intro h
            rcases hrec.1.mp h with ⟨h1, -⟩
            cases h1
          · rintro ⟨-, hall⟩
            have hmm := hall m (List.mem_cons_self m rest)
            rw [hw] at hmm
            cases hmm
        · rw [hstep]
          intro n h
          rcases hrec.2 n h with ⟨hacc, hmin⟩ | ⟨i, hi, hwn, hacclt, hfirst, hmin⟩
          · have hmn : m = n := by injection hacc
            subst hmn
            refine Or.inr ⟨0, by simp, hw, ?_, ?_, ?_⟩
            · intro a ha
              rw [ha] at himp
              simp only [Option.map_some', ltSmallest, decide_eq_true_eq] at himp
              exact himp
            · intro j hj x hx hwx
              omega
            · intro x hx hwx
              rcases List.mem_cons.mp hx with rfl | hxr
              · exact le_refl _
              · exact hmin x hxr hwx
          · refine Or.inr ⟨i + 1, by simpa using hi, hwn, ?_, ?_, ?_⟩
            · intro a ha
              have h1 : rangeSize n.range < rangeSize m.range := hacclt m rfl
              rw [ha] at himp
              simp only [Option.map_some', ltSmallest, decide_eq_true_eq] at himp
              omega
            · intro j hj x hx hwx
              cases j with
              | zero =>
                have hxm : m = x := by simpa using hx
                subst hxm
                exact hacclt m rfl
              | succ j' =>
                exact hfirst j' (by omega) x (by simpa using hx) hwx
            · intro x hx hwx
              rcases List.mem_cons.mp hx with rfl | hxr
              · exact le_of_lt (hacclt x rfl)
              · exact hmin x hxr hwx
      · -- containing head that does not strictly improve: accumulator persists
        cases hacc0 : acc with
        | none =>
          rw [hacc0] at himp
          simp [ltSmallest] at himp
        | some a =>
          subst hacc0
          simp only [Option.map_some', ltSmallest, decide_eq_true_eq] at himp
          have hstep : findClosestGo cursor (m :: rest) (some a) (some (rangeSize a.range))
              = findClosestGo cursor rest (some a) (some (rangeSize a.range)) := by
            simp [findClosestGo, hw, ltSmallest, himp]
          have hrec := ih (some a)
          simp only [Option.map_some'] at hrec
          refine ⟨?_, ?_⟩
          · simp only [Option.map_some']
            rw [hstep, hrec.1]
            simp
          · simp only [Option.map_some']
            rw [hstep]
            intro n h
            rcases hrec.2 n h with ⟨hacc, hmin⟩ | ⟨i, hi, hwn, hacclt, hfirst, hmin⟩
            · have han : a = n := by injection hacc
              subst han
              refine Or.inl ⟨rfl, ?_⟩
              intro x hx hwx
              rcases List.mem_cons.mp hx with rfl | hxr
              · omega
              · exact hmin x hxr hwx
            · refine Or.inr ⟨i + 1, by simpa using hi, hwn, ?_, ?_, ?_⟩
              · intro b hb
                have hab : a = b := by injection hb
                subst hab
                exact hacclt a rfl
              · intro j hj x hx hwx
                cases j with
                | zero =>
                  have hxm : m = x := by simpa using hx
                  subst hxm
                  have h1 : rangeSize n.range < rangeSize a.range := hacclt a rfl
                  omega
                | succ j' =>
                  exact hfirst j' (by omega) x (by simpa using hx) hwx
              · intro x hx hwx
                rcases List.mem_cons.mp hx with rfl | hxr
                · have h1 := hacclt a rfl
                  omega
                · exact hmin x hxr hwx
    · -- non-containing head is skipped
      have hw' : withinRange m.range cursor = false := by
        cases h : withinRange m.range cursor
        · rfl
        · exact absurd h hw
      have hstep : findClosestGo cursor (m :: rest) acc
            (acc.map (fun a => rangeSize a.range))
          = findClosestGo cursor rest acc (acc.map (fun a => rangeSize a.range)) := by
        simp [findClosestGo, hw']
      have hrec := ih acc
      refine ⟨?_, ?_⟩
      · rw [hstep, hrec.1]
        constructor
        · rintro ⟨h1, h2⟩
          refine ⟨h1, ?_⟩
          intro x hx
          rcases List.mem_cons.mp hx with rfl | hxr
          · exact hw'
          · exact h2 x hxr
        · rintro ⟨h1, h2⟩
          exact ⟨h1, fun x hx => h2 x (List.mem_cons_of_mem m hx)⟩
      · rw [hstep]
        intro n h
        rcases hrec.2 n h with ⟨hacc, hmin⟩ | ⟨i, hi, hwn, hacclt, hfirst, hmin⟩
        · refine Or.inl ⟨hacc, ?_⟩
          intro x hx hwx
          rcases List.mem_cons.mp hx with rfl | hxr
          · rw [hwx] at hw'
            cases hw'
          · exact hmin x hxr hwx
        · refine Or.inr ⟨i + 1, by simpa using hi, hwn, hacclt, ?_, ?_⟩
          · intro j hj x hx hwx
            cases j with
            | zero =>
              have hxm : m = x := by simpa using hx
              subst hxm
              rw [hwx] at hw'
              cases hw'
            | succ j' =>
              exact hfirst j' (by omega) x (by simpa using hx) hwx
          · intro x hx hwx
            rcases List.mem_cons.mp hx with rfl | hxr
            · rw [hwx] at hw'
              cases hw'
            · exact hmin x hxr hwx

/-- A concrete candidate node used as counterexample input for C2. -/
def cexNodeC2 : SgNode := .mk "identifier" ⟨⟨0, 0⟩, ⟨0, 3⟩⟩ "abc".data []

/-- C2 counterexample: with the single candidate spanning `(0,0)-(0,3)` and the
point `(0,3)` — equal to the candidate's range end, hence NOT contained under
the spec's half-open convention — `findClosestNodeAtCursor` nevertheless
returns that candidate instead of no-match, so "returns no-match iff no
candidate contains the point" fails under half-open containment. -/
theorem findClosestEndPointCounterexample :
    findClosestNodeAtCursor [cexNodeC2] ⟨0, 3⟩ = some cexNodeC2 ∧
    ¬ specHalfOpenContains cexNodeC2.range ⟨0, 3⟩ := by
  exact ⟨rfl, by decide⟩

/-- C2 amended: with containment read as the function's own closed
(start-inclusive, end-inclusive) test, `findClosestNodeAtCursor` returns
no-match iff no candidate contains the point, and otherwise returns a
containing candidate of minimal weighted size `(endLine − startLine) × 1000 +
(endColumn − startColumn)`, ties resolved to the first such candidate in input
order (every containing candidate strictly earlier in the list has strictly
larger weighted size). -/
theorem findClosestNodeAtCursorSpec (nodes : List SgNode) (cursor : Pos) :
    (findClosestNodeAtCursor nodes cursor = none ↔
      ∀ m ∈ nodes, ¬ specClosedContains m.range cursor) ∧
    (∀ n, findClosestNodeAtCursor nodes cursor = some n →
      (∃ i, nodes.get? i = some n ∧ specClosedContains n.range cursor ∧
        (∀ m ∈ nodes, specClosedContains m.range cursor →
          rangeSize n.range ≤ rangeSize m.range) ∧
        (∀ j, j < i → ∀ m, nodes.get? j = some m →
          specClosedContains m.range cursor → rangeSize n.range < rangeSize m.range))) := by
  have hspec := findClosestGo_spec nodes cursor none
  simp only [Option.map_none'] at hspec
  have hcc : ∀ r : Range, (withinRange r cursor = true ↔ specClosedContains r cursor) :=
    fun r => withinRange_iff_closed r cursor
  have hccf : ∀ r : Range, (withinRange r cursor = false ↔ ¬ specClosedContains r cursor) := by
    intro r
    rw [← hcc r]
    cases withinRange r cursor <;> simp
  constructor
  · rw [show findClosestNodeAtCursor nodes cursor
        = findClosestGo cursor nodes none none from rfl, hspec.1]
    constructor
    · rintro ⟨-, h2⟩ m hm
      exact (hccf m.range).mp (h2 m hm)
    · intro h
      exact ⟨by trivial, fun m hm => (hccf m.range).mpr (h m hm)⟩
  · intro n h
    rcases hspec.2 n h with ⟨hacc, -⟩ | ⟨i, hi, hwn, -, hfirst, hmin⟩
    · cases hacc
    · refine ⟨i, hi, (hcc n.range).mp hwn, ?_, ?_⟩
      · intro m hm hcm
        exact hmin m hm ((hcc m.range).mpr hcm)
      · intro j hj m hjm hcm
        exact hfirst j hj m hjm ((hcc m.range).mpr hcm)

/-- Witness for C2's amended theorem: with the wide candidate `(0,0)-(0,10)`
before the narrow `(0,2)-(0,5)` and the point `(0,3)`, the characterization
instantiates concretely. -/
def wideNodeC2 : SgNode := .mk "call_expression" ⟨⟨0, 0⟩, ⟨0, 10⟩⟩ "f(g(x), y)".data []

def narrowNodeC2 : SgNode := .mk "call_expression" ⟨⟨0, 2⟩, ⟨0, 5⟩⟩ "g(x)".data []

/-- Applies `findClosestNodeAtCursorSpec` at a concrete input, discharging its
hypothesis (`findClosestNodeAtCursor ... = some narrowNodeC2`) by `rfl`. -/
theorem findClosestNodeAtCursorSpecWitness :
    ∃ i, [wideNodeC2, narrowNodeC2].get? i = some narrowNodeC2 ∧
      specClosedContains narrowNodeC2.range ⟨0, 3⟩ ∧
      (∀ m ∈ [wideNodeC2, narrowNodeC2], specClosedContains m.range ⟨0, 3⟩ →
        rangeSize narrowNodeC2.range ≤ rangeSize m.range) ∧
      (∀ j, j < i → ∀ m, [wideNodeC2, narrowNodeC2].get? j = some m →
        specClosedContains m.range ⟨0, 3⟩ →
        rangeSize narrowNodeC2.range < rangeSize m.range) :=
  (findClosestNodeAtCursorSpec [wideNodeC2, narrowNodeC2] ⟨0, 3⟩).2 narrowNodeC2 rfl

/-- The while-loop body of `findAncestorOfKind` (src/unnamed/part_004 lines
61-70), phrased over the chain `current :: parents`: test the current node's
kind against `kinds`, else move to the parent. -/
def ancestorLoop (kinds : List String) : List SgNode → Option SgNode
  | [] => none
  | current :: rest =>
    if current.kind ∈ kinds then some current else ancestorLoop kinds rest

/-- Embeds `findAncestorOfKind` from src/unnamed/part_004: the walk starts at
`node` itself (`let current = node`), with `anc` its parent chain, innermost
first. -/
def findAncestorOfKind (node : SgNode) (anc : List SgNode) (kinds : List String) :
    Option SgNode :=
  ancestorLoop kinds (node :: anc)

/-- A concrete node whose own kind is in the searched kind-set, with no
parents, used as counterexample input for C8. -/
def cexNodeC8 : SgNode := .mk "arguments" ⟨⟨0, 1⟩, ⟨0, 8⟩⟩ "(a,b,c)".data []

/-- C8 counterexample: the start node's own kind is in the kind-set and it has
no ancestors at all, yet `findAncestorOfKind` returns the start node itself —
not no-match, and not a proper ancestor — because the walk starts at the node
itself rather than at its parent. -/
theorem findAncestorIncludesStartCounterexample :
    "arguments" = cexNodeC8.kind ∧
    findAncestorOfKind cexNodeC8 [] ["arguments"] = some cexNodeC8 := by
  exact ⟨rfl, rfl⟩

/-- Characterization of `ancestorLoop` as a first-match search. -/
theorem ancestorLoop_spec (kinds : List String) (l : List SgNode) :
    (ancestorLoop kinds l = none ↔ ∀ x ∈ l, x.kind ∉ kinds) ∧
    (∀ a, ancestorLoop kinds l = some a →
      ∃ i, l.get? i = some a ∧ a.kind ∈ kinds ∧
        ∀ j, j < i → ∀ x, l.get? j = some x → x.kind ∉ kinds) := by
  induction l with
  | nil => exact ⟨by simp [ancestorLoop], by intro a h; simp [ancestorLoop] at h⟩
  | cons c rest ih =>
    by_cases hc : c.kind ∈ kinds
    · refine ⟨?_, ?_⟩
      · simp only [ancestorLoop, if_pos hc]
        constructor
        · intro h
          cases h
        · intro h
          exact absurd hc (h c (List.mem_cons_self c rest))
      · intro a h
        simp only [ancestorLoop, if_pos hc] at h
        have hca : c = a := by injection h
        subst hca
        exact ⟨0, rfl, hc, by intro j hj; omega⟩
    · refine ⟨?_, ?_⟩
      · simp only [ancestorLoop, if_neg hc]
        rw [ih.1]
        constructor
        · intro h x hx
          rcases List.mem_cons.mp hx with rfl | hxr
          · exact hc
          · exact h x hxr
        · intro h x hx
          exact h x (List.mem_cons_of_mem c hx)
      · intro a h
        simp only [ancestorLoop, if_neg hc] at h
        rcases ih.2 a h with ⟨i, hi, hk, hfirst⟩
        refine ⟨i + 1, by simpa using hi, hk, ?_⟩
        intro j hj x hx
        cases j with
        | zero =>
          have hcx : c = x := by simpa using hx
          subst hcx
          exact hc
        | succ j' =>
          exact hfirst j' (by omega) x (by simpa using hx)

/-- C8 amended: ancestor-of-kind search as implemented includes the start node:
it returns the first node in `node :: ancestors` (so possibly the start node
itself) whose kind is in the kind-set; in particular, when the start node's own
kind is in the set the result is the start node, and the result is no-match iff
neither the start node nor any ancestor has a kind in the set. -/
theorem findAncestorOfKindSpec (node : SgNode) (anc : List SgNode) (kinds : List String) :
    (node.kind ∈ kinds → findAncestorOfKind node anc kinds = some node) ∧
    (findAncestorOfKind node anc kinds = none ↔ ∀ x ∈ node :: anc, x.kind ∉ kinds) ∧
    (∀ a, findAncestorOfKind node anc kinds = some a →
      ∃ i, (node :: anc).get? i = some a ∧ a.kind ∈ kinds ∧
        ∀ j, j < i → ∀ x, (node :: anc).get? j = some x → x.kind ∉ kinds) := by
  refine ⟨?_, (ancestorLoop_spec kinds (node :: anc)).1,
    (ancestorLoop_spec kinds (node :: anc)).2⟩
  intro h
  simp [findAncestorOfKind, ancestorLoop, h]

/-- Witness for C8's amended theorem at a concrete input: the start node's kind
is in the set, so the search returns the start node itself. -/
theorem findAncestorOfKindSpecWitness :
    findAncestorOfKind cexNodeC8 [] ["arguments", "formal_parameters"] = some cexNodeC8 :=
  (findAncestorOfKindSpec cexNodeC8 [] ["arguments", "formal_parameters"]).1 (by decide)

mutual
/-- Embeds `findDeepest` inside `findNodeUnderCursor` (src/unnamed/part_004
lines 28-50), enriched with the ancestor chain `anc` (innermost first) that the
source reaches through parent pointers: if the node does not contain the
cursor return null, otherwise return the first deeper match among the children,
else the node itself. -/
def findDeepestPath (line column : Int) (anc : List SgNode) :
    SgNode → Option (SgNode × List SgNode)
  | SgNode.mk k r t cs =>
    if deepContains r line column then
      match findDeepestPathList line column (SgNode.mk k r t cs :: anc) cs with
      | some p => some p
      | none => some (SgNode.mk k r t cs, anc)
    else none

/-- The `for (const child of node.children())` loop of `findDeepest`: the first
child with a deeper match wins. -/
def findDeepestPathList (line column : Int) (anc : List SgNode) :
    List SgNode → Option (SgNode × List SgNode)
  | [] => none
  | c :: rest =>
    match findDeepestPath line column anc c with
    | some p => some p
    | none => findDeepestPathList line column anc rest
end

/-- Embeds `findNodeUnderCursor` (src/unnamed/part_004 lines 18-58) with the
parse step abstracted by the `tree` argument (the root node); returns the node
together with its ancestor chain, `none` where the source throws
`Error("No node found at cursor")`. -/
def findNodeUnderCursor (tree : SgNode) (cursor : Pos) : Option (SgNode × List SgNode) :=
  findDeepestPath cursor.line cursor.column [] tree

/-- The fixed kind set of list parents (src/unnamed/part_004 line 72). -/
def LIST_PARENT_KINDS : List String :=
  ["arguments", "formal_parameters", "binary_expression", "ternary_expression",
   "object_pattern", "intersection_type", "union_type"]

/-- Embeds `findListParentAtCursor` (src/unnamed/part_004 lines 74-81).
`.error` is the propagated `Error("No node found at cursor")` thrown by
`findNodeUnderCursor`; `.ok none` is a null return (node found but no
list-parent ancestor). -/
def findListParentAtCursorE (tree : SgNode) (cursor : Pos) :
    Except String (Option SgNode) :=
  match findNodeUnderCursor tree cursor with
  | none => .error "No node found at cursor"
  | some (node, anc) => .ok (findAncestorOfKind node anc LIST_PARENT_KINDS)

/-- Engine-level failure: either a `ModFlowError` (carrying its `code`, e.g.
`NO_MATCH` or `DEBUG`) or a plain thrown JS `Error` (carrying only a message). -/
inductive EngineError where
  | modFlow (code : String) (message : String)
  | js (message : String)
deriving DecidableEq, Repr

/-- `new NoMatchError(nodeType)`: code `NO_MATCH`, message
`No <nodeType> found at cursor`. -/
def noMatch (nodeType : String) : EngineError :=
  .modFlow "NO_MATCH" ("No " ++ nodeType ++ " found at cursor")

/-- A successful `ModResult` (src/server/index.ts `ModSuccessResult`, with the
optional fields of the other server variants included; fields a handler does
not set are `none`). -/
structure ModSuccess where
  mod : List Char
  original_source : List Char
  original_range : Range
  cursor : Option Pos
  clipboard : Option (List Char)
  source : Option (List Char)
deriving DecidableEq, Repr

inductive Direction where
  | left
  | right
deriving DecidableEq, Repr

/-- Embeds `calculateCursorOffset` (src/server/index.ts lines 30-38). -/
structure CursorOffset where
  lineOffset : Int
  colOffset : Int
deriving DecidableEq, Repr

def calculateCursorOffset (line column : Int) (itemStart : Pos) : CursorOffset :=
  let lineOffset := line - itemStart.line
  ⟨lineOffset, if lineOffset = 0 then column - itemStart.column else column⟩

/-- Embeds `applyCursorOffset` (src/server/index.ts lines 40-51). -/
def applyCursorOffset (newStart : Pos) (offset : CursorOffset) : Pos :=
  ⟨newStart.line + offset.lineOffset,
   if offset.lineOffset = 0 then newStart.column + offset.colOffset else offset.colOffset⟩

/-- JS `text.split("\n")` (always a non-empty list of lines). -/
def splitLines : List Char → List (List Char)
  | [] => [[]]
  | c :: rest =>
    match splitLines rest with
    | [] => [[c]]
    | l :: ls => if c = '\n' then [] :: l :: ls else (c :: l) :: ls

/-- `lines.length - 1` of a split result, as used for `rightLineCount` etc. -/
def lineCount (t : List Char) : Int :=
  (splitLines t).length - 1

/-- `lines[lines.length - 1].length` of a split result (`rightLastLineLen`). -/
def lastLineLen (t : List Char) : Int :=
  ((splitLines t).getLastD []).length

/-- Embeds the `binary_expression` branch of `handleMoveNode`
(src/server/index.ts lines 68-190); `children[0..2]` are left, operator,
right, and a missing one is the `"binary operand"` failure. -/
def moveBinary (source : List Char) (line column : Int) (direction : Direction)
    (listParent : SgNode) : Except EngineError ModSuccess :=
  match listParent.children with
  | left :: operator :: right :: _ =>
    let onLeft := cursorContains left.range line column
    let onRight := cursorContains right.range line column
    let onOperator := cursorContains operator.range line column
    if !onLeft && !onRight && !onOperator then
      .error (noMatch "operand")
    else if !onOperator &&
        ((decide (direction = Direction.left) && onLeft) ||
         (decide (direction = Direction.right) && onRight)) then
      .error (noMatch (if direction = Direction.left then "previous operand" else "next operand"))
    else
      let newCursor : Pos :=
        if onOperator then
          let rightLineCount := lineCount right.text
          let rightLastLineLen := lastLineLen right.text
          let cursorOffset := calculateCursorOffset line column operator.range.start
          if rightLineCount = 0 then
            ⟨left.range.start.line + cursorOffset.lineOffset,
             if cursorOffset.lineOffset = 0 then
               left.range.start.column + rightLastLineLen + 1 + cursorOffset.colOffset
             else cursorOffset.colOffset⟩
          else
            ⟨left.range.start.line + rightLineCount + cursorOffset.lineOffset,
             if cursorOffset.lineOffset = 0 then
               rightLastLineLen + 1 + cursorOffset.colOffset
             else cursorOffset.colOffset⟩
        else if onRight then
          applyCursorOffset left.range.start
            (calculateCursorOffset line column right.range.start)
        else
          let cursorOffset := calculateCursorOffset line column left.range.start
          let rightLineCount := lineCount right.text
          let rightLastLineLen := lastLineLen right.text
          let opTextLen : Int := operator.text.length
          if rightLineCount = 0 then
            ⟨left.range.start.line + cursorOffset.lineOffset,
             if cursorOffset.lineOffset = 0 then
               left.range.start.column + rightLastLineLen + opTextLen + 2 +
                 cursorOffset.colOffset
             else cursorOffset.colOffset⟩
          else
            ⟨left.range.start.line + rightLineCount + cursorOffset.lineOffset,
             if cursorOffset.lineOffset = 0 then
               rightLastLineLen + opTextLen + 2 + cursorOffset.colOffset
             else cursorOffset.colOffset⟩
      .ok { mod := right.text ++ [' '] ++ operator.text ++ [' '] ++ left.text,
            original_source := source,
            original_range := ⟨listParent.range.start, listParent.range.stop⟩,
            cursor := some newCursor, clipboard := none, source := none }
  | _ => .error (noMatch "binary operand")

/-- Embeds the `ternary_expression` branch of `handleMoveNode`
(src/server/index.ts lines 194-322); `children[0..4]` are condition, `?`,
consequent, `:`, alternate. -/
def moveTernary (source : List Char) (line column : Int) (direction : Direction)
    (listParent : SgNode) : Except EngineError ModSuccess :=
  match listParent.children with
  | condition :: questionMark :: consequent :: colonOp :: alternate :: _ =>
    let onCondition := cursorContains condition.range line column
    let onQuestionMark := cursorContains questionMark.range line column
    let onConsequent := cursorContains consequent.range line column
    let onColon := cursorContains colonOp.range line column
    let onAlternate := cursorContains alternate.range line column
    if onCondition || onQuestionMark then
      .error (noMatch "ternary branch (cursor on condition)")
    else if !onConsequent && !onColon && !onAlternate then
      .error (noMatch "ternary branch")
    else if !onColon &&
        ((decide (direction = Direction.left) && onConsequent) ||
         (decide (direction = Direction.right) && onAlternate)) then
      .error (noMatch (if direction = Direction.left then "previous branch" else "next branch"))
    else
      let newCursor : Pos :=
        if onColon then
          let alternateLineCount := lineCount alternate.text
          let alternateLastLineLen := lastLineLen alternate.text
          let cursorOffset := calculateCursorOffset line column colonOp.range.start
          if alternateLineCount = 0 then
            ⟨consequent.range.start.line + cursorOffset.lineOffset,
             if cursorOffset.lineOffset = 0 then
               consequent.range.start.column + alternateLastLineLen + 1 +
                 cursorOffset.colOffset
             else cursorOffset.colOffset⟩
          else
            ⟨consequent.range.start.line + alternateLineCount + cursorOffset.lineOffset,
             if cursorOffset.lineOffset = 0 then
               alternateLastLineLen + 1 + cursorOffset.colOffset
             else cursorOffset.colOffset⟩
        else if onAlternate then
          applyCursorOffset consequent.range.start
            (calculateCursorOffset line column alternate.range.start)
        else
          let cursorOffset := calculateCursorOffset line column consequent.range.start
          let alternateLineCount := lineCount alternate.text
          let alternateLastLineLen := lastLineLen alternate.text
          if alternateLineCount = 0 then
            ⟨consequent.range.start.line + cursorOffset.lineOffset,
             if cursorOffset.lineOffset = 0 then
               consequent.range.start.column + alternateLastLineLen + 3 +
                 cursorOffset.colOffset
             else cursorOffset.colOffset⟩
          else
            ⟨consequent.range.start.line + alternateLineCount + cursorOffset.lineOffset,
             if cursorOffset.lineOffset = 0 then
               alternateLastLineLen + 3 + cursorOffset.colOffset
             else cursorOffset.colOffset⟩
      .ok { mod := condition.text ++ [' '] ++ questionMark.text ++ [' '] ++
              alternate.text ++ [' '] ++ colonOp.text ++ [' '] ++ consequent.text,
            original_source := source,
            original_range := ⟨listParent.range.start, listParent.range.stop⟩,
            cursor := some newCursor, clipboard := none, source := none }
  | _ => .error (noMatch "ternary branch")

/-- The separator/punctuation filter of the comma-list branch
(src/server/index.ts lines 325-328). -/
def listItems (listParent : SgNode) : List SgNode :=
  listParent.children.filter (fun child =>
    decide (child.kind ≠ ",") && decide (child.kind ≠ "(") && decide (child.kind ≠ ")"))

/-- The new-cursor computation of the comma-list right move (src/server/index.ts
lines 368-400): the cursor offset relative to the pivot's start, re-applied
after the successor's text and the `", "` separator, with the multi-line
successor branch. -/
def moveRightNewCursor (line column : Int) (currStart : Pos) (nextText : List Char) :
    Pos :=
  let cursorOffset := calculateCursorOffset line column currStart
  let nextLineCount := lineCount nextText
  let nextLastLineLen := lastLineLen nextText
  if nextLineCount = 0 then
    ⟨currStart.line + cursorOffset.lineOffset,
     if cursorOffset.lineOffset = 0 then
       currStart.column + nextLastLineLen + 2 + cursorOffset.colOffset
     else cursorOffset.colOffset⟩
  else
    ⟨currStart.line + nextLineCount + cursorOffset.lineOffset,
     if cursorOffset.lineOffset = 0 then
       nextLastLineLen + 2 + cursorOffset.colOffset
     else cursorOffset.colOffset⟩

/-- Embeds the generic comma-list branch of `handleMoveNode`
(src/server/index.ts lines 324-411).  The in-bounds index lookups of the
source (guaranteed by `findIndex`) are matched; the fallback arms are
unreachable. -/
def moveList (source : List Char) (line column : Int) (direction : Direction)
    (listParent : SgNode) : Except EngineError ModSuccess :=
  match (listItems listParent).findIdx?
      (fun item => cursorContains item.range line column) with
  | none => .error (noMatch "item")
  | some currentIndex =>
    match direction with
    | .left =>
      if currentIndex = 0 then
        .error (noMatch "previous item")
      else
        match (listItems listParent).get? (currentIndex - 1), (listItems listParent).get? currentIndex with
        | some prevItem, some currItem =>
          let cursorOffset := calculateCursorOffset line column currItem.range.start
          let newCursor := applyCursorOffset prevItem.range.start cursorOffset
          .ok { mod := currItem.text ++ (", ").data ++ prevItem.text,
                original_source := source,
                original_range := ⟨prevItem.range.start, currItem.range.stop⟩,
                cursor := some newCursor, clipboard := none, source := none }
        | _, _ => .error (noMatch "item")
    | .right =>
      if currentIndex ≥ (listItems listParent).length - 1 then
        .error (noMatch "next item")
      else
        match (listItems listParent).get? currentIndex, (listItems listParent).get? (currentIndex + 1) with
        | some currItem, some nextItem =>
          let newCursor : Pos :=
            moveRightNewCursor line column currItem.range.start nextItem.text
          .ok { mod := nextItem.text ++ (", ").data ++ currItem.text,
                original_source := source,
                original_range := ⟨currItem.range.start, nextItem.range.stop⟩,
                cursor := some newCursor, clipboard := none, source := none }
        | _, _ => .error (noMatch "item")

/-- Embeds `handleMoveNode` (src/server/index.ts lines 53-412): resolve the
list parent, then dispatch on its kind.  The parse inside
`findListParentAtCursor` is abstracted by the `tree` argument; `cursor` is
`nodeInfo.cursor`; thrown errors are `.error` values. -/
def handleMoveNode (source : List Char) (tree : SgNode) (cursor : Pos)
    (direction : Direction) : Except EngineError ModSuccess :=
  match findListParentAtCursorE tree cursor with
  | .error e => .error (.js e)
  | .ok none => .error (noMatch "swappable expression")
  | .ok (some listParent) =>
    if listParent.kind = "binary_expression" then
      moveBinary source cursor.line cursor.column direction listParent
    else if listParent.kind = "ternary_expression" then
      moveTernary source cursor.line cursor.column direction listParent
    else
      moveList source cursor.line cursor.column direction listParent

/-- Once the list parent is resolved with a kind that is neither binary nor
ternary, `handleMoveNode` is the comma-list branch. -/
theorem handleMoveNode_eq_moveList (source : List Char) (tree : SgNode) (cursor : Pos)
    (direction : Direction) (P : SgNode)
    (hP : findListParentAtCursorE tree cursor = .ok (some P))
    (hb : P.kind ≠ "binary_expression") (ht : P.kind ≠ "ternary_expression") :
    handleMoveNode source tree cursor direction
      = moveList source cursor.line cursor.column direction P := by
  simp [handleMoveNode, hP, hb, ht]

/-- Once the list parent is resolved with kind `binary_expression`,
`handleMoveNode` is the binary branch. -/
theorem handleMoveNode_eq_moveBinary (source : List Char) (tree : SgNode) (cursor : Pos)
    (direction : Direction) (P : SgNode)
    (hP : findListParentAtCursorE tree cursor = .ok (some P))
    (hk : P.kind = "binary_expression") :
    handleMoveNode source tree cursor direction
      = moveBinary source cursor.line cursor.column direction P := by
  simp [handleMoveNode, hP, hk]

/-- Once the list parent is resolved with kind `ternary_expression`,
`handleMoveNode` is the ternary branch. -/
theorem handleMoveNode_eq_moveTernary (source : List Char) (tree : SgNode) (cursor : Pos)
    (direction : Direction) (P : SgNode)
    (hP : findListParentAtCursorE tree cursor = .ok (some P))
    (hk : P.kind = "ternary_expression") :
    handleMoveNode source tree cursor direction
      = moveTernary source cursor.line cursor.column direction P := by
  simp [handleMoveNode, hP, hk]

/-- The comma-list left-move, in equation form: with the pivot at index `i > 0`
and its predecessor present, the result is the swap of the two items. -/
theorem moveList_left_eq (source : List Char) (line column : Int) (P : SgNode)
    (i : Nat) (prevItem currItem : SgNode)
    (hi : (listItems P).findIdx? (fun item => cursorContains item.range line column)
      = some i)
    (h0 : i ≠ 0)
    (hprev : (listItems P).get? (i - 1) = some prevItem)
    (hcurr : (listItems P).get? i = some currItem) :
    moveList source line column Direction.left P
      = .ok { mod := currItem.text ++ (", ").data ++ prevItem.text,
              original_source := source,
              original_range := ⟨prevItem.range.start, currItem.range.stop⟩,
              cursor := some (applyCursorOffset prevItem.range.start
                (calculateCursorOffset line column currItem.range.start)),
              clipboard := none, source := none } := by
  unfold moveList
  rw [hi]
  dsimp only
  rw [if_neg h0, hprev, hcurr]

/-- The comma-list right-move, in equation form: with the pivot at index `i`
and its successor present, the result is the swap of the two items. -/
theorem moveList_right_eq (source : List Char) (line column : Int) (P : SgNode)
    (i : Nat) (currItem nextItem : SgNode)
    (hi : (listItems P).findIdx? (fun item => cursorContains item.range line column)
      = some i)
    (hcurr : (listItems P).get? i = some currItem)
    (hnext : (listItems P).get? (i + 1) = some nextItem) :
    moveList source line column Direction.right P
      = .ok { mod := nextItem.text ++ (", ").data ++ currItem.text,
              original_source := source,
              original_range := ⟨currItem.range.start, nextItem.range.stop⟩,
              cursor := some
                (moveRightNewCursor line column currItem.range.start nextItem.text),
              clipboard := none, source := none } := by
  have hlt : i + 1 < (listItems P).length := by
    by_contra hge
    rw [List.get?_eq_none.mpr (by omega)] at hnext
    cases hnext
  have hcond : ¬ (i ≥ (listItems P).length - 1) := by omega
  unfold moveList
  rw [hi]
  dsimp only
  rw [if_neg hcond, hcurr, hnext]

/-- C3: in the generic comma-list case, a move with an adjacent neighbor in
the move direction replaces exactly the two swapped items' span — starting at
the start of the earlier item and ending at the end of the later one, never
the whole list — with the two items' texts joined by `", "`, the item moving
toward the front first. -/
theorem moveListSwapAdjacent (source : List Char) (tree : SgNode) (cursor : Pos)
    (P : SgNode) (i : Nat)
    (hP : findListParentAtCursorE tree cursor = .ok (some P))
    (hb : P.kind ≠ "binary_expression") (ht : P.kind ≠ "ternary_expression")
    (hi : (listItems P).findIdx?
      (fun item => cursorContains item.range cursor.line cursor.column) = some i) :
    (∀ prevItem currItem, i ≠ 0 →
      (listItems P).get? (i - 1) = some prevItem →
      (listItems P).get? i = some currItem →
      ∃ c, handleMoveNode source tree cursor Direction.left
        = .ok { mod := currItem.text ++ (", ").data ++ prevItem.text,
                original_source := source,
                original_range := ⟨prevItem.range.start, currItem.range.stop⟩,
                cursor := some c, clipboard := none, source := none }) ∧
    (∀ currItem nextItem,
      (listItems P).get? i = some currItem →
      (listItems P).get? (i + 1) = some nextItem →
      ∃ c, handleMoveNode source tree cursor Direction.right
        = .ok { mod := nextItem.text ++ (", ").data ++ currItem.text,
                original_source := source,
                original_range := ⟨currItem.range.start, nextItem.range.stop⟩,
                cursor := some c, clipboard := none, source := none }) := by
  constructor
  · intro prevItem currItem h0 hprev hcurr
    rw [handleMoveNode_eq_moveList source tree cursor Direction.left P hP hb ht]
    exact ⟨_, moveList_left_eq source cursor.line cursor.column P i prevItem currItem
      hi h0 hprev hcurr⟩
  · intro currItem nextItem hcurr hnext
    rw [handleMoveNode_eq_moveList source tree cursor Direction.right P hP hb ht]
    exact ⟨_, moveList_right_eq source cursor.line cursor.column P i currItem nextItem
      hi hcurr hnext⟩

/-- Concrete syntax tree of the source `f(a,b,c)` (tree-sitter JavaScript
shape), shared by several witnesses and counterexamples. -/
def fabcA : SgNode := .mk "identifier" ⟨⟨0, 2⟩, ⟨0, 3⟩⟩ "a".data []

def fabcB : SgNode := .mk "identifier" ⟨⟨0, 4⟩, ⟨0, 5⟩⟩ "b".data []

def fabcC : SgNode := .mk "identifier" ⟨⟨0, 6⟩, ⟨0, 7⟩⟩ "c".data []

def fabcArguments : SgNode :=
  .mk "arguments" ⟨⟨0, 1⟩, ⟨0, 8⟩⟩ "(a,b,c)".data
    [.mk "(" ⟨⟨0, 1⟩, ⟨0, 2⟩⟩ "(".data [],
     fabcA,
     .mk "," ⟨⟨0, 3⟩, ⟨0, 4⟩⟩ ",".data [],
     fabcB,
     .mk "," ⟨⟨0, 5⟩, ⟨0, 6⟩⟩ ",".data [],
     fabcC,
     .mk ")" ⟨⟨0, 7⟩, ⟨0, 8⟩⟩ ")".data []]

def fabcProgram : SgNode :=
  .mk "program" ⟨⟨0, 0⟩, ⟨0, 8⟩⟩ "f(a,b,c)".data
    [.mk "expression_statement" ⟨⟨0, 0⟩, ⟨0, 8⟩⟩ "f(a,b,c)".data
      [.mk "call_expression" ⟨⟨0, 0⟩, ⟨0, 8⟩⟩ "f(a,b,c)".data
        [.mk "identifier" ⟨⟨0, 0⟩, ⟨0, 1⟩⟩ "f".data [],
         fabcArguments]]]

/-- Applies `moveListSwapAdjacent` to `f(a,b,c)` with the cursor on `b`,
discharging every hypothesis at the concrete input. -/
theorem moveListSwapAdjacentWitness :
    ∃ c, handleMoveNode ("f(a,b,c)".data) fabcProgram ⟨0, 4⟩ Direction.left
      = .ok { mod := "b, a".data, original_source := "f(a,b,c)".data,
              original_range := ⟨⟨0, 2⟩, ⟨0, 5⟩⟩,
              cursor := some c, clipboard := none, source := none } :=
  (moveListSwapAdjacent ("f(a,b,c)".data) fabcProgram ⟨0, 4⟩ fabcArguments 1
    rfl (by decide) (by decide) rfl).1 fabcA fabcB (by decide) rfl rfl

/-- C5: moving past either end fails with error code `NO_MATCH` and produces
no replacement: move-left with the pivot resolved to the first
operand/branch/item, and move-right with the pivot resolved to the last, in
each of the three list-parent shapes. -/
theorem moveBoundaryFailsNoMatch (source : List Char) (tree : SgNode) (cursor : Pos)
    (P : SgNode) (hP : findListParentAtCursorE tree cursor = .ok (some P)) :
    (∀ l op r tl, P.kind = "binary_expression" → P.children = l :: op :: r :: tl →
      cursorContains l.range cursor.line cursor.column = true →
      cursorContains op.range cursor.line cursor.column = false →
      handleMoveNode source tree cursor Direction.left
        = .error (noMatch "previous operand")) ∧
    (∀ l op r tl, P.kind = "binary_expression" → P.children = l :: op :: r :: tl →
      cursorContains r.range cursor.line cursor.column = true →
      cursorContains op.range cursor.line cursor.column = false →
      handleMoveNode source tree cursor Direction.right
        = .error (noMatch "next operand")) ∧
    (∀ c q x col y tl, P.kind = "ternary_expression" →
      P.children = c :: q :: x :: col :: y :: tl →
      cursorContains c.range cursor.line cursor.column = false →
      cursorContains q.range cursor.line cursor.column = false →
      cursorContains x.range cursor.line cursor.column = true →
      cursorContains col.range cursor.line cursor.column = false →
      handleMoveNode source tree cursor Direction.left
        = .error (noMatch "previous branch")) ∧
    (∀ c q x col y tl, P.kind = "ternary_expression" →
      P.children = c :: q :: x :: col :: y :: tl →
      cursorContains c.range cursor.line cursor.column = false →
      cursorContains q.range cursor.line cursor.column = false →
      cursorContains y.range cursor.line cursor.column = true →
      cursorContains col.range cursor.line cursor.column = false →
      handleMoveNode source tree cursor Direction.right
        = .error (noMatch "next branch")) ∧
    (P.kind ≠ "binary_expression" → P.kind ≠ "ternary_expression" →
      (listItems P).findIdx?
        (fun item => cursorContains item.range cursor.line cursor.column) = some 0 →
      handleMoveNode source tree cursor Direction.left
        = .error (noMatch "previous item")) ∧
    (∀ i, P.kind ≠ "binary_expression" → P.kind ≠ "ternary_expression" →
      (listItems P).findIdx?
        (fun item => cursorContains item.range cursor.line cursor.column) = some i →
      i = (listItems P).length - 1 →
      handleMoveNode source tree cursor Direction.right
        = .error (noMatch "next item")) := by
  refine ⟨?_, ?_, ?_, ?_, ?_, ?_⟩
  · intro l op r tl hk hch hL hOp
    rw [handleMoveNode_eq_moveBinary source tree cursor Direction.left P hP hk]
    unfold moveBinary
    rw [hch]
    dsimp only
    rw [hL, hOp]
    simp
  · intro l op r tl hk hch hR hOp
    rw [handleMoveNode_eq_moveBinary source tree cursor Direction.right P hP hk]
    unfold moveBinary
    rw [hch]
    dsimp only
    rw [hR, hOp]
    simp
  · intro c q x col y tl hk hch hc hq hx hcol
    rw [handleMoveNode_eq_moveTernary source tree cursor Direction.left P hP hk]
    unfold moveTernary
    rw [hch]
    dsimp only
    rw [hc, hq, hx, hcol]
    simp
  · intro c q x col y tl hk hch hc hq hy hcol
    rw [handleMoveNode_eq_moveTernary source tree cursor Direction.right P hP hk]
    unfold moveTernary
    rw [hch]
    dsimp only
    rw [hc, hq, hy, hcol]
    simp
  · intro hb ht hi0
    rw [handleMoveNode_eq_moveList source tree cursor Direction.left P hP hb ht]
    unfold moveList
    rw [hi0]
    dsimp only
    rw [if_pos rfl]
  · intro i hb ht hi hlast
    rw [handleMoveNode_eq_moveList source tree cursor Direction.right P hP hb ht]
    unfold moveList
    rw [hi]
    dsimp only
    rw [if_pos (by omega : i ≥ (listItems P).length - 1)]

/-- Applies `moveBoundaryFailsNoMatch` to the comma list `f(a,b,c)` with the
cursor on `a`: move-left fails with `NO_MATCH` and no replacement. -/
theorem moveBoundaryFailsNoMatchWitness :
    handleMoveNode ("f(a,b,c)".data) fabcProgram ⟨0, 2⟩ Direction.left
      = .error (.modFlow "NO_MATCH" "No previous item found at cursor") :=
  (moveBoundaryFailsNoMatch ("f(a,b,c)".data) fabcProgram ⟨0, 2⟩ fabcArguments
    rfl).2.2.2.2.1 (by decide) (by decide) rfl

/-- The ternary right-move with the cursor on the consequent only, in equation
form. -/
theorem moveTernary_right_eq (source : List Char) (line column : Int) (P : SgNode)
    (c q x col y : SgNode) (tl : List SgNode)
    (hch : P.children = c :: q :: x :: col :: y :: tl)
    (hc : cursorContains c.range line column = false)
    (hq : cursorContains q.range line column = false)
    (hx : cursorContains x.range line column = true)
    (hcol : cursorContains col.range line column = false)
    (hy : cursorContains y.range line column = false) :
    moveTernary source line column Direction.right P
      = .ok { mod := c.text ++ [' '] ++ q.text ++ [' '] ++ y.text ++ [' '] ++
                col.text ++ [' '] ++ x.text,
              original_source := source,
              original_range := ⟨P.range.start, P.range.stop⟩,
              cursor := some (
                let cursorOffset := calculateCursorOffset line column x.range.start
                let alternateLineCount := lineCount y.text
                let alternateLastLineLen := lastLineLen y.text
                if alternateLineCount = 0 then
                  ⟨x.range.start.line + cursorOffset.lineOffset,
                   if cursorOffset.lineOffset = 0 then
                     x.range.start.column + alternateLastLineLen + 3 +
                       cursorOffset.colOffset
                   else cursorOffset.colOffset⟩
                else
                  ⟨x.range.start.line + alternateLineCount + cursorOffset.lineOffset,
                   if cursorOffset.lineOffset = 0 then
                     alternateLastLineLen + 3 + cursorOffset.colOffset
                   else cursorOffset.colOffset⟩),
              clipboard := none, source := none } := by
  unfold moveTernary
  rw [hch]
  dsimp only
  rw [hc, hq, hx, hcol, hy]
  simp

/-- C7: on a ternary `cond ? x : y` with the cursor on the consequent `x` (and
on no other child), move-right succeeds with replacement `cond ? y : x` —
consequent and alternate exchanged, condition and the `?`/`:` separator texts
unchanged — over a replaced range equal to the whole ternary's range. -/
theorem moveTernarySwapRight (source : List Char) (tree : SgNode) (cursor : Pos)
    (P : SgNode) (c q x col y : SgNode) (tl : List SgNode)
    (hP : findListParentAtCursorE tree cursor = .ok (some P))
    (hk : P.kind = "ternary_expression")
    (hch : P.children = c :: q :: x :: col :: y :: tl)
    (hqt : q.text = "?".data) (hcolt : col.text = ":".data)
    (hc : cursorContains c.range cursor.line cursor.column = false)
    (hq : cursorContains q.range cursor.line cursor.column = false)
    (hx : cursorContains x.range cursor.line cursor.column = true)
    (hcol : cursorContains col.range cursor.line cursor.column = false)
    (hy : cursorContains y.range cursor.line cursor.column = false) :
    ∃ cur, handleMoveNode source tree cursor Direction.right
      = .ok { mod := c.text ++ (" ? ").data ++ y.text ++ (" : ").data ++ x.text,
              original_source := source,
              original_range := P.range,
              cursor := some cur, clipboard := none, source := none } := by
  have hmod : c.text ++ [' '] ++ q.text ++ [' '] ++ y.text ++ [' '] ++
        col.text ++ [' '] ++ x.text
      = c.text ++ (" ? ").data ++ y.text ++ (" : ").data ++ x.text := by
    rw [hqt, hcolt]
    show c.text ++ [' '] ++ ['?'] ++ [' '] ++ y.text ++ [' '] ++ [':'] ++ [' '] ++ x.text
        = c.text ++ [' ', '?', ' '] ++ y.text ++ [' ', ':', ' '] ++ x.text
    simp [List.append_assoc]
  have h := moveTernary_right_eq source cursor.line cursor.column P c q x col y tl
    hch hc hq hx hcol hy
  rw [hmod] at h
  rw [handleMoveNode_eq_moveTernary source tree cursor Direction.right P hP hk]
  exact ⟨_, h⟩

/-- Concrete syntax tree of the source `cond ? x : y`. -/
def ternCond : SgNode := .mk "identifier" ⟨⟨0, 0⟩, ⟨0, 4⟩⟩ "cond".data []

def ternQ : SgNode := .mk "?" ⟨⟨0, 5⟩, ⟨0, 6⟩⟩ "?".data []

def ternX : SgNode := .mk "identifier" ⟨⟨0, 7⟩, ⟨0, 8⟩⟩ "x".data []

def ternColon : SgNode := .mk ":" ⟨⟨0, 9⟩, ⟨0, 10⟩⟩ ":".data []

def ternY : SgNode := .mk "identifier" ⟨⟨0, 11⟩, ⟨0, 12⟩⟩ "y".data []

def ternaryNode : SgNode :=
  .mk "ternary_expression" ⟨⟨0, 0⟩, ⟨0, 12⟩⟩ "cond ? x : y".data
    [ternCond, ternQ, ternX, ternColon, ternY]

def ternaryProgram : SgNode :=
  .mk "program" ⟨⟨0, 0⟩, ⟨0, 12⟩⟩ "cond ? x : y".data
    [.mk "expression_statement" ⟨⟨0, 0⟩, ⟨0, 12⟩⟩ "cond ? x : y".data
      [ternaryNode]]

/-- Applies `moveTernarySwapRight` to `cond ? x : y` with the cursor on `x`,
discharging every hypothesis at the concrete input. -/
theorem moveTernarySwapRightWitness :
    ∃ cur, handleMoveNode ("cond ? x : y".data) ternaryProgram ⟨0, 7⟩ Direction.right
      = .ok { mod := "cond ? y : x".data,
              original_source := "cond ? x : y".data,
              original_range := ⟨⟨0, 0⟩, ⟨0, 12⟩⟩,
              cursor := some cur, clipboard := none, source := none } :=
  moveTernarySwapRight ("cond ? x : y".data) ternaryProgram ⟨0, 7⟩ ternaryNode
    ternCond ternQ ternX ternColon ternY []
    rfl rfl rfl rfl rfl (by decide) (by decide) (by decide) (by decide) (by decide)

/-- The markup-kind test of `handleDeleteClosestTag` (src/unnamed/part_006
lines 234-238): element, self-closing element, or fragment. -/
def isJsxBoundaryKind (k : String) : Bool :=
  decide (k = "jsx_element") || decide (k = "jsx_self_closing_element") ||
    decide (k = "jsx_fragment")

/-- The while-loop of `handleDeleteClosestTag` (src/unnamed/part_006 lines
230-257) over the chain `currentNode :: parents`, with the `foundJsxBoundary`
flag threaded (on a match with the flag already set the loop breaks and falls
through to the throw; with the flag clear it returns the deletion edit). -/
def deleteTagWalk (source : List Char) :
    List SgNode → Bool → Except EngineError ModSuccess
  | [], _ => .error (noMatch "JSX tag or fragment")
  | currentNode :: rest, foundJsxBoundary =>
    if isJsxBoundaryKind currentNode.kind then
      if foundJsxBoundary = false then
        .ok { mod := [], original_source := source,
              original_range := currentNode.range,
              cursor := none, clipboard := some currentNode.text, source := none }
      else
        .error (noMatch "JSX tag or fragment")
    else
      deleteTagWalk source rest foundJsxBoundary

/-- Embeds `handleDeleteClosestTag` (src/unnamed/part_006 lines 219-258); the
anchor-resolution step (`findNodeUnderCursor`, the range-query correlation) is
abstracted by passing the resolved `targetNode` and its parent chain `anc`. -/
def handleDeleteClosestTag (source : List Char) (targetNode : SgNode)
    (anc : List SgNode) : Except EngineError ModSuccess :=
  deleteTagWalk source (targetNode :: anc) false

/-- First-match characterization of `deleteTagWalk` with the flag clear. -/
theorem deleteTagWalk_spec (source : List Char) (l : List SgNode) :
    ((∀ x ∈ l, isJsxBoundaryKind x.kind = false) →
      deleteTagWalk source l false = .error (noMatch "JSX tag or fragment")) ∧
    (∀ i n, l.get? i = some n → isJsxBoundaryKind n.kind = true →
      (∀ j, j < i → ∀ x, l.get? j = some x → isJsxBoundaryKind x.kind = false) →
      deleteTagWalk source l false
        = .ok { mod := [], original_source := source, original_range := n.range,
                cursor := none, clipboard := some n.text, source := none }) := by
  induction l with
  | nil =>
    refine ⟨fun _ => rfl, ?_⟩
    intro i n hi
    simp at hi
  | cons c rest ih =>
    by_cases hc : isJsxBoundaryKind c.kind = true
    · refine ⟨?_, ?_⟩
      · intro h
        have := h c (List.mem_cons_self c rest)
        rw [hc] at this
        cases this
      · intro i n hi hn hfirst
        cases i with
        | zero =>
          have hcn : c = n := by simpa using hi
          subst hcn
          simp [deleteTagWalk, hc]
        | succ i' =>
          have := hfirst 0 (by omega) c rfl
          rw [hc] at this
          cases this
    · have hc' : isJsxBoundaryKind c.kind = false := by
        cases h : isJsxBoundaryKind c.kind
        · rfl
        · exact absurd h hc
      refine ⟨?_, ?_⟩
      · intro h
        simp only [deleteTagWalk, hc', Bool.false_eq_true, if_false]
        exact ih.1 fun x hx => h x (List.mem_cons_of_mem c hx)
      · intro i n hi hn hfirst
        cases i with
        | zero =>
          have hcn : c = n := by simpa using hi
          subst hcn
          rw [hn] at hc'
          cases hc'
        | succ i' =>
          simp only [deleteTagWalk, hc', Bool.false_eq_true, if_false]
          exact ih.2 i' n (by simpa using hi) hn
            (fun j hj x hx => hfirst (j + 1) (by omega) x (by simpa using hx))

/-- C9: delete-closest-tag walks outward from the resolved node; with no
markup (element / self-closing element / fragment) ancestor-or-self it fails,
and otherwise the FIRST such node on the walk — never an enclosing outer one —
is deleted: empty replacement text over exactly that node's range, with that
node's original text as the clipboard payload. -/
theorem deleteClosestTagSpec (source : List Char) (targetNode : SgNode)
    (anc : List SgNode) :
    ((∀ x ∈ targetNode :: anc, isJsxBoundaryKind x.kind = false) →
      handleDeleteClosestTag source targetNode anc
        = .error (noMatch "JSX tag or fragment")) ∧
    (∀ i n, (targetNode :: anc).get? i = some n → isJsxBoundaryKind n.kind = true →
      (∀ j, j < i → ∀ x, (targetNode :: anc).get? j = some x →
        isJsxBoundaryKind x.kind = false) →
      handleDeleteClosestTag source targetNode anc
        = .ok { mod := [], original_source := source, original_range := n.range,
                cursor := none, clipboard := some n.text, source := none }) :=
  deleteTagWalk_spec source (targetNode :: anc)

/-- Concrete nested-JSX input for C9's witness: an identifier inside an inner
`jsx_element` which itself sits inside an outer `jsx_element`. -/
def jsxInner : SgNode :=
  .mk "jsx_element" ⟨⟨1, 2⟩, ⟨1, 13⟩⟩ "<b>hi</b>".data []

def jsxOuter : SgNode :=
  .mk "jsx_element" ⟨⟨0, 0⟩, ⟨2, 6⟩⟩ "<div>\n  <b>hi</b>\n</div>".data []

def jsxTarget : SgNode := .mk "identifier" ⟨⟨1, 3⟩, ⟨1, 4⟩⟩ "b".data []

/-- Applies `deleteClosestTagSpec` at a concrete nested input: the inner
element is deleted, not the enclosing outer one. -/
theorem deleteClosestTagSpecWitness :
    handleDeleteClosestTag ("<div>\n  <b>hi</b>\n</div>".data) jsxTarget
        [jsxInner, jsxOuter]
      = .ok { mod := [], original_source := "<div>\n  <b>hi</b>\n</div>".data,
              original_range := ⟨⟨1, 2⟩, ⟨1, 13⟩⟩,
              cursor := none, clipboard := some ("<b>hi</b>".data), source := none } :=
  (deleteClosestTagSpec ("<div>\n  <b>hi</b>\n</div>".data) jsxTarget
    [jsxInner, jsxOuter]).2 1 jsxInner rfl (by decide)
    (by
      intro j hj x hx
      interval_cases j
      · have hx' : jsxTarget = x := by simpa using hx
        subst hx'
        decide)

/-- Index of the first (leftmost) occurrence of `pat` in a string, as JS
`String.prototype.replace` with a plain-string pattern locates it. -/
def firstMatchIdx (pat : List Char) : List Char → Option Nat
  | [] => if pat.isPrefixOf [] then some 0 else none
  | c :: rest =>
    if pat.isPrefixOf (c :: rest) then some 0
    else (firstMatchIdx pat rest).map (· + 1)

/-- Models JS `source.replace(pat, t)` with a plain-string pattern: replace the
first occurrence of `pat` by `t`, or return the string unchanged when `pat`
does not occur. -/
def replaceFirst (s pat t : List Char) : List Char :=
  match firstMatchIdx pat s with
  | none => s
  | some i => s.take i ++ t ++ s.drop (i + pat.length)

/-- `firstMatchIdx` finds exactly the leftmost occurrence. -/
theorem firstMatchIdx_spec (pat s : List Char) :
    (firstMatchIdx pat s = none ↔ ∀ i, ¬ pat <+: s.drop i) ∧
    (∀ i, firstMatchIdx pat s = some i →
      (pat <+: s.drop i) ∧ ∀ j, j < i → ¬ pat <+: s.drop j) := by
  induction s with
  | nil =>
    by_cases hp : pat.isPrefixOf ([] : List Char) = true
    · have hpp : pat <+: ([] : List Char) := List.isPrefixOf_iff_prefix.mp hp
      refine ⟨?_, ?_⟩
      · simp only [firstMatchIdx, if_pos hp]
        constructor
        · intro h
          cases h
        · intro h
          exact absurd (by simpa using hpp) (h 0)
      · intro i hi
        simp only [firstMatchIdx, if_pos hp] at hi
        have : (0 : Nat) = i := by simpa using hi
        subst this
        exact ⟨by simpa using hpp, by intro j hj; omega⟩
    · have hpp : ¬ pat <+: ([] : List Char) := fun h =>
        hp (List.isPrefixOf_iff_prefix.mpr h)
      refine ⟨?_, ?_⟩
      · simp only [firstMatchIdx, if_neg hp]
        exact ⟨fun _ i => by simpa using hpp, fun _ => by trivial⟩
      · intro i hi
        simp only [firstMatchIdx, if_neg hp] at hi
        cases hi
  | cons c rest ih =>
    by_cases hp : pat.isPrefixOf (c :: rest) = true
    · have hpp : pat <+: c :: rest := List.isPrefixOf_iff_prefix.mp hp
      refine ⟨?_, ?_⟩
      · simp only [firstMatchIdx, if_pos hp]
        constructor
        · intro h
          cases h
        · intro h
          exact absurd (by simpa using hpp) (h 0)
      · intro i hi
        simp only [firstMatchIdx, if_pos hp] at hi
        have : (0 : Nat) = i := by simpa using hi
        subst this
        exact ⟨by simpa using hpp, by intro j hj; omega⟩
    · have hpp : ¬ pat <+: c :: rest := fun h =>
        hp (List.isPrefixOf_iff_prefix.mpr h)
      refine ⟨?_, ?_⟩
      · simp only [firstMatchIdx, if_neg hp]
        constructor
        · intro h i
          have hnone : firstMatchIdx pat rest = none := by
            cases hfix : firstMatchIdx pat rest
            · rfl
            · rw [hfix] at h
              cases h
          cases i with
          | zero => simpa using hpp
          | succ i' => simpa using ih.1.mp hnone i'
        · intro h
          rw [Option.map_eq_none']
          exact ih.1.mpr fun i => by simpa using h (i + 1)
      · intro i hi
        simp only [firstMatchIdx, if_neg hp] at hi
        rcases Option.map_eq_some'.mp hi with ⟨i', hi', rfl⟩
        rcases ih.2 i' hi' with ⟨hpre, hfirst⟩
        refine ⟨by simpa using hpre, ?_⟩
        intro j hj
        cases j with
        | zero => simpa using hpp
        | succ j' => simpa using hfirst j' (by omega)

/-- The `NodeInfo` descriptor (src/unnamed/part_007 second document,
lines 537-544): range, text and tree-sitter type. -/
structure NodeInfo where
  range : Range
  text : List Char
  type : String
deriving DecidableEq, Repr

/-- The `ModResult` shape of src/unnamed/part_007's first document (lines
10-20): a `found` flag with optional payload fields. -/
structure PFResult where
  found : Bool
  mod : Option (List Char)
  original_range : Option Range
  cursor : Option Pos
  original_source : Option (List Char)
  source : Option (List Char)
deriving DecidableEq, Repr

/-- Embeds the cursor-based `handleDeleteFunction` (src/unnamed/part_007 lines
55-88); the `root.findAll(kind(lang, "function_declaration"))` parser query is
abstracted by the `functionDeclarations` argument. -/
def handleDeleteFunction (functionDeclarations : List SgNode) (source : List Char)
    (cursor : Pos) : PFResult :=
  match findClosestNodeAtCursor functionDeclarations cursor with
  | some closestFunction =>
    { found := true, mod := some [],
      original_range := some closestFunction.range,
      cursor := some cursor, original_source := some source,
      source := some (replaceFirst source closestFunction.text []) }
  | none =>
    { found := false, mod := none, original_range := none,
      cursor := some cursor, original_source := none, source := none }

/-- Embeds the descriptor-based `handleDeleteFunction` (src/unnamed/part_007
lines 677-727): the first declaration matching the descriptor's exact range
and text is deleted; no match throws `NoMatchError("function")`. -/
def handleDeleteFunctionByInfo (functionDeclarations : List SgNode)
    (source : List Char) (nodeInfo : Option NodeInfo) :
    Except EngineError ModSuccess :=
  let targetFunction : Option SgNode := match nodeInfo with
    | some info => functionDeclarations.find? fun (f : SgNode) =>
        decide (f.range = info.range) && decide (f.text = info.text)
    | none => none
  match targetFunction with
  | some t =>
    .ok { mod := [], original_source := source, original_range := t.range,
          cursor := none, clipboard := none,
          source := some (replaceFirst source t.text []) }
  | none => .error (noMatch "function")

/-- C10: whenever `delete_function` succeeds (either variant), the `source`
field is the input source with the FIRST occurrence, in string order, of the
deleted function's text removed — if an identical text occurs earlier in the
file than the matched declaration (whose exact range is reported in
`original_range`), the earlier occurrence is the one deleted from `source`. -/
theorem deleteFunctionRemovesFirstOccurrence (funcs : List SgNode)
    (source : List Char) (cursor : Pos) (info : NodeInfo) :
    (∀ f : SgNode, findClosestNodeAtCursor funcs cursor = some f →
      (handleDeleteFunction funcs source cursor).found = true ∧
      (handleDeleteFunction funcs source cursor).original_range = some f.range ∧
      (handleDeleteFunction funcs source cursor).source
        = some (replaceFirst source f.text []) ∧
      ∀ k, firstMatchIdx f.text source = some k →
        (handleDeleteFunction funcs source cursor).source
          = some (source.take k ++ source.drop (k + f.text.length)) ∧
        (f.text <+: source.drop k) ∧
        (∀ j, j < k → ¬ f.text <+: source.drop j)) ∧
    (∀ r, handleDeleteFunctionByInfo funcs source (some info) = .ok r →
      ∃ t : SgNode, funcs.find? (fun (f : SgNode) =>
          decide (f.range = info.range) && decide (f.text = info.text)) = some t ∧
        r.original_range = t.range ∧
        r.source = some (replaceFirst source t.text []) ∧
        ∀ k, firstMatchIdx t.text source = some k →
          r.source = some (source.take k ++ source.drop (k + t.text.length)) ∧
          (t.text <+: source.drop k) ∧
          (∀ j, j < k → ¬ t.text <+: source.drop j)) := by
  constructor
  · intro f hf
    unfold handleDeleteFunction
    rw [hf]
    refine ⟨rfl, rfl, rfl, ?_⟩
    intro k hk
    rcases (firstMatchIdx_spec f.text source).2 k hk with ⟨hpre, hfirst⟩
    refine ⟨?_, hpre, hfirst⟩
    simp only [replaceFirst, hk, List.append_nil]
  · intro r hr
    unfold handleDeleteFunctionByInfo at hr
    dsimp only at hr
    cases hfind : funcs.find? (fun (f : SgNode) =>
        decide (f.range = info.range) && decide (f.text = info.text)) with
    | none =>
      rw [hfind] at hr
      cases hr
    | some t =>
      rw [hfind] at hr
      injection hr with h
      subst h
      refine ⟨t, rfl, rfl, rfl, ?_⟩
      intro k hk
      rcases (firstMatchIdx_spec t.text source).2 k hk with ⟨hpre, hfirst⟩
      refine ⟨?_, hpre, hfirst⟩
      simp only [replaceFirst, hk, List.append_nil]

/-- Two function declarations with identical text on lines 0 and 1 of
`function f(){}\nfunction f(){}`, for C10's witness. -/
def dupSource : List Char := "function f(){}\nfunction f(){}".data

def dupFn1 : SgNode :=
  .mk "function_declaration" ⟨⟨0, 0⟩, ⟨0, 14⟩⟩ "function f(){}".data []

def dupFn2 : SgNode :=
  .mk "function_declaration" ⟨⟨1, 0⟩, ⟨1, 14⟩⟩ "function f(){}".data []

/-- Applies `deleteFunctionRemovesFirstOccurrence` with the cursor inside the
SECOND declaration: `original_range` is the second declaration's range, yet the
occurrence removed from `source` is the one at index 0 — the first in string
order, not the one at `original_range`. -/
theorem deleteFunctionRemovesFirstOccurrenceWitness :
    (handleDeleteFunction [dupFn1, dupFn2] dupSource ⟨1, 2⟩).found = true ∧
    (handleDeleteFunction [dupFn1, dupFn2] dupSource ⟨1, 2⟩).original_range
      = some dupFn2.range ∧
    (handleDeleteFunction [dupFn1, dupFn2] dupSource ⟨1, 2⟩).source
      = some (dupSource.take 0 ++ dupSource.drop (0 + "function f(){}".data.length)) := by
  have h := (deleteFunctionRemovesFirstOccurrence [dupFn1, dupFn2] dupSource ⟨1, 2⟩
    ⟨⟨⟨1, 0⟩, ⟨1, 14⟩⟩, "function f(){}".data, "function_declaration"⟩).1 dupFn2 rfl
  exact ⟨h.1, h.2.1, (h.2.2.2 0 rfl).1⟩

mutual
/-- Pre-order traversal paired with ancestor chains (innermost first, root
last): the tree-side data that `findAll` queries and parent walks observe. -/
def collectNodes (anc : List SgNode) : SgNode → List (SgNode × List SgNode)
  | SgNode.mk k r t cs =>
    (SgNode.mk k r t cs, anc) :: collectNodesList (SgNode.mk k r t cs :: anc) cs

def collectNodesList (anc : List SgNode) : List SgNode → List (SgNode × List SgNode)
  | [] => []
  | c :: rest => collectNodes anc c ++ collectNodesList anc rest
end

/-- The three reference-chain kinds of `hasOptionalLastAccessor`
(src/unnamed/part_007 lines 197-219). -/
def MEMBER_EXPRESSION_KINDS : List String :=
  ["member_expression", "optional_member_expression", "subscript_expression"]

/-- Embeds `hasOptionalLastAccessor` (src/unnamed/part_007 lines 186-230); the
secondary parse of the candidate expression text is abstracted by `exprRoot`,
the root of the tree parsed from that text.  `findAll` per kind is the
pre-order filter, concatenated in the source's member/optional/subscript
order; the `while (parent && parent !== root)` walk checks every proper
ancestor except the root itself, i.e. the chain with its last entry dropped. -/
def hasOptionalLastAccessor (exprRoot : SgNode) : Bool :=
  let all := collectNodes [] exprRoot
  let memberExpressions := all.filter fun p => decide (p.1.kind = "member_expression")
  let optionalMemberExpressions :=
    all.filter fun p => decide (p.1.kind = "optional_member_expression")
  let subscriptExpressions :=
    all.filter fun p => decide (p.1.kind = "subscript_expression")
  let allExpressions :=
    memberExpressions ++ optionalMemberExpressions ++ subscriptExpressions
  let outermostExpression := allExpressions.find? fun p =>
    p.2.dropLast.all fun a => !(MEMBER_EXPRESSION_KINDS.contains a.kind)
  match outermostExpression with
  | some p => decide (p.1.kind = "optional_member_expression")
  | none => false

/-- Embeds the exact-argument branch of `handlePointFreeToAnon`
(src/unnamed/part_007 lines 262-296): the resolved closest node's text
(`originalText`) and `range`, the enclosing call expression's argument texts
(`args`, from `extractCallArguments`), and the secondary parse of
`originalText` (`exprRoot`) are passed explicitly; the branch applies exactly
when the node's text is literally one of the arguments. -/
def pointFreeExactArgBranch (source : List Char) (cursor : Pos)
    (originalText : List Char) (range : Range) (args : List (List Char))
    (exprRoot : SgNode) : Option PFResult :=
  if args.contains originalText then
    let lastAccessorIsOptional := hasOptionalLastAccessor exprRoot
    let exactTransformedText :=
      if lastAccessorIsOptional then ("() => ").data ++ originalText ++ ("()").data
      else ("() => ").data ++ originalText ++ ("?.()").data
    some { found := true, mod := some exactTransformedText,
           original_range := some range, cursor := some cursor,
           original_source := some source,
           source := some (replaceFirst source originalText exactTransformedText) }
  else none

/-- The secondary parse of the bare reference `pred`: no member/optional/
subscript node at all. -/
def predExprRoot : SgNode :=
  .mk "program" ⟨⟨0, 0⟩, ⟨0, 4⟩⟩ "pred".data
    [.mk "expression_statement" ⟨⟨0, 0⟩, ⟨0, 4⟩⟩ "pred".data
      [.mk "identifier" ⟨⟨0, 0⟩, ⟨0, 4⟩⟩ "pred".data []]]

/-- C6 counterexample: the bare identifier argument `pred` of
`items.find(x => x.match(pred))` — whose reference chain has NO optional
outermost accessor — is wrapped to `() => pred?.()`, not the claimed
`() => pred()`: the optional-chaining decision is inverted. -/
theorem pointFreeOptionalInvertedCounterexample :
    (pointFreeExactArgBranch ("items.find(x => x.match(pred))".data) ⟨0, 24⟩
        ("pred".data) ⟨⟨0, 24⟩, ⟨0, 28⟩⟩ ["pred".data] predExprRoot).map (fun r => r.mod)
      = some (some ("() => pred?.()".data)) ∧
    hasOptionalLastAccessor predExprRoot = false ∧
    "() => pred?.()".data ≠ "() => pred()".data := by
  refine ⟨rfl, rfl, by decide⟩

/-- C6 amended: the wrap direction is the reverse of the claim — when the
outermost accessor of the resolved reference chain is itself optional the full
reference text is wrapped with a plain call, `() => <expr>()`, and otherwise
with an optional-chaining call, `() => <expr>?.()`; in both cases the wrap
covers the full reference's range and the `source` field splices the wrapped
text over the first occurrence of the reference text. -/
theorem pointFreeWrapBehavior (source : List Char) (cursor : Pos)
    (originalText : List Char) (range : Range) (args : List (List Char))
    (exprRoot : SgNode) (h : args.contains originalText = true) :
    (hasOptionalLastAccessor exprRoot = true →
      pointFreeExactArgBranch source cursor originalText range args exprRoot
        = some { found := true,
                 mod := some (("() => ").data ++ originalText ++ ("()").data),
                 original_range := some range, cursor := some cursor,
                 original_source := some source,
                 source := some (replaceFirst source originalText
                   (("() => ").data ++ originalText ++ ("()").data)) }) ∧
    (hasOptionalLastAccessor exprRoot = false →
      pointFreeExactArgBranch source cursor originalText range args exprRoot
        = some { found := true,
                 mod := some (("() => ").data ++ originalText ++ ("?.()").data),
                 original_range := some range, cursor := some cursor,
                 original_source := some source,
                 source := some (replaceFirst source originalText
                   (("() => ").data ++ originalText ++ ("?.()").data)) }) := by
  have h' : originalText ∈ args := by simpa using h
  constructor
  · intro hOpt
    simp [pointFreeExactArgBranch, h', hOpt]
  · intro hOpt
    simp [pointFreeExactArgBranch, h', hOpt]

/-- The secondary parse of the reference `a?.b`: the outermost accessor is an
optional member access. -/
def aqbExprRoot : SgNode :=
  .mk "program" ⟨⟨0, 0⟩, ⟨0, 4⟩⟩ "a?.b".data
    [.mk "expression_statement" ⟨⟨0, 0⟩, ⟨0, 4⟩⟩ "a?.b".data
      [.mk "optional_member_expression" ⟨⟨0, 0⟩, ⟨0, 4⟩⟩ "a?.b".data
        [.mk "identifier" ⟨⟨0, 0⟩, ⟨0, 1⟩⟩ "a".data [],
         .mk "?." ⟨⟨0, 1⟩, ⟨0, 3⟩⟩ "?.".data [],
         .mk "property_identifier" ⟨⟨0, 3⟩, ⟨0, 4⟩⟩ "b".data []]]]

/-- Applies `pointFreeWrapBehavior` at a concrete input whose outermost
accessor IS optional (`a?.b`): the wrap is the plain `() => a?.b()`. -/
theorem pointFreeWrapBehaviorWitness :
    pointFreeExactArgBranch ("f(a?.b)".data) ⟨0, 2⟩ ("a?.b".data)
        ⟨⟨0, 2⟩, ⟨0, 6⟩⟩ ["a?.b".data] aqbExprRoot
      = some { found := true, mod := some ("() => a?.b()".data),
               original_range := some ⟨⟨0, 2⟩, ⟨0, 6⟩⟩, cursor := some ⟨0, 2⟩,
               original_source := some ("f(a?.b)".data),
               source := some (replaceFirst ("f(a?.b)".data) ("a?.b".data)
                 ("() => a?.b()".data)) } :=
  (pointFreeWrapBehavior ("f(a?.b)".data) ⟨0, 2⟩ ("a?.b".data) ⟨⟨0, 2⟩, ⟨0, 6⟩⟩
    ["a?.b".data] aqbExprRoot (by decide)).1 rfl

/-- The buffer content as the host holds it: a list of lines
(`buffer.lines`); the engine's `source` string is their `"\n"` join. -/
def joinLines (lines : List (List Char)) : List Char :=
  List.intercalate ['\n'] lines

/-- Embeds the host-side edit application (src/lua/mod-flow/init.lua):
`vim.split(result.mod, "\n")` followed by `nvim_buf_set_text(bufnr,
start.line, start.column, end.line, end.column, replacement_lines)` — the
buffer text between the two positions is replaced by the replacement lines. -/
def spliceLinesInto (before : List Char) (repl : List (List Char))
    (after : List Char) : List (List Char) :=
  match repl with
  | [] => [before ++ after]
  | [x] => [before ++ x ++ after]
  | x :: xs => (before ++ x) :: (xs.dropLast ++ [xs.getLastD [] ++ after])

def applyEdit (lines : List (List Char)) (r : Range) (repl : List (List Char)) :
    List (List Char) :=
  let startLine := r.start.line.toNat
  let stopLine := r.stop.line.toNat
  let before := (lines.getD startLine []).take r.start.column.toNat
  let after := (lines.getD stopLine []).drop r.stop.column.toNat
  lines.take startLine ++ spliceLinesInto before repl after ++ lines.drop (stopLine + 1)

/-- Concrete syntax tree of `f(b, a,c)`, the source produced by splicing the
move-left edit into `f(a,b,c)`. -/
def fbacArguments : SgNode :=
  .mk "arguments" ⟨⟨0, 1⟩, ⟨0, 9⟩⟩ "(b, a,c)".data
    [.mk "(" ⟨⟨0, 1⟩, ⟨0, 2⟩⟩ "(".data [],
     .mk "identifier" ⟨⟨0, 2⟩, ⟨0, 3⟩⟩ "b".data [],
     .mk "," ⟨⟨0, 3⟩, ⟨0, 4⟩⟩ ",".data [],
     .mk "identifier" ⟨⟨0, 5⟩, ⟨0, 6⟩⟩ "a".data [],
     .mk "," ⟨⟨0, 6⟩, ⟨0, 7⟩⟩ ",".data [],
     .mk "identifier" ⟨⟨0, 7⟩, ⟨0, 8⟩⟩ "c".data [],
     .mk ")" ⟨⟨0, 8⟩, ⟨0, 9⟩⟩ ")".data []]

def fbacProgram : SgNode :=
  .mk "program" ⟨⟨0, 0⟩, ⟨0, 9⟩⟩ "f(b, a,c)".data
    [.mk "expression_statement" ⟨⟨0, 0⟩, ⟨0, 9⟩⟩ "f(b, a,c)".data
      [.mk "call_expression" ⟨⟨0, 0⟩, ⟨0, 9⟩⟩ "f(b, a,c)".data
        [.mk "identifier" ⟨⟨0, 0⟩, ⟨0, 1⟩⟩ "f".data [],
         fbacArguments]]]

/-- C4 counterexample: on the 3-item comma list `f(a,b,c)` (separator `,`
without a space) with the cursor on the middle item `b`, move-left followed —
after splicing and cursor threading — by move-right on the re-parsed source
yields `f(a, b,c)`, not the original `f(a,b,c)`: the round trip does not
restore the original source text, because the replacement always joins with
`", "` regardless of the original separator text. -/
theorem moveRoundtripCounterexample :
    handleMoveNode ("f(a,b,c)".data) fabcProgram ⟨0, 4⟩ Direction.left
      = .ok { mod := "b, a".data, original_source := "f(a,b,c)".data,
              original_range := ⟨⟨0, 2⟩, ⟨0, 5⟩⟩, cursor := some ⟨0, 2⟩,
              clipboard := none, source := none } ∧
    applyEdit ["f(a,b,c)".data] ⟨⟨0, 2⟩, ⟨0, 5⟩⟩ (splitLines ("b, a".data))
      = ["f(b, a,c)".data] ∧
    handleMoveNode ("f(b, a,c)".data) fbacProgram ⟨0, 2⟩ Direction.right
      = .ok { mod := "a, b".data, original_source := "f(b, a,c)".data,
              original_range := ⟨⟨0, 2⟩, ⟨0, 6⟩⟩, cursor := some ⟨0, 5⟩,
              clipboard := none, source := none } ∧
    applyEdit ["f(b, a,c)".data] ⟨⟨0, 2⟩, ⟨0, 6⟩⟩ (splitLines ("a, b".data))
      = ["f(a, b,c)".data] ∧
    ("f(a, b,c)".data ≠ "f(a,b,c)".data) := by
  exact ⟨rfl, rfl, rfl, rfl, by decide⟩

theorem get?_append_cons {α : Type} (L1 : List α) (x : α) (rest : List α) :
    (L1 ++ x :: rest).get? L1.length = some x := by
  rw [List.get?_append_right (Nat.le_refl _)]
  simp

theorem get?_append_cons_succ {α : Type} (L1 : List α) (x y : α) (rest : List α) :
    (L1 ++ x :: y :: rest).get? (L1.length + 1) = some y := by
  rw [List.get?_append_right (by omega)]
  simp

/-- JS `split` always yields at least one line. -/
theorem splitLines_ne_nil (t : List Char) : splitLines t ≠ [] := by
  cases t with
  | nil => simp [splitLines]
  | cons c rest =>
    simp only [splitLines]
    cases h : splitLines rest with
    | nil => simp
    | cons l ls =>
      by_cases hc : c = '\n' <;> simp [hc]

theorem getD_of_get? {α : Type} : ∀ (l : List α) (n : Nat) (x d : α),
    l.get? n = some x → l.getD n d = x := by
  intro l
  induction l with
  | nil => intro n x d h; cases h
  | cons a rest ih =>
    intro n x d h
    cases n with
    | zero =>
      have : a = x := by simpa using h
      simpa using this
    | succ n' =>
      have h' : rest.get? n' = some x := by simpa using h
      simpa using ih n' x d h'

/-- Splicing a replacement text over a region that spans exactly the segment
between column `|A|` of line `|S0|` and the end of that segment's last line:
the region's old content `M` is replaced by `t`, line structure included, and
the rest of the buffer is untouched.  `M` and `t` may both span any number of
lines. -/
theorem applyEdit_region (S0 S2 : List (List Char)) (A B M t : List Char) :
    applyEdit (S0 ++ spliceLinesInto A (splitLines M) B ++ S2)
      ⟨⟨(S0.length : Int), (A.length : Int)⟩,
       ⟨(S0.length : Int) + lineCount M,
        (if lineCount M = 0 then (A.length : Int) else 0) + lastLineLen M⟩⟩
      (splitLines t)
    = S0 ++ spliceLinesInto A (splitLines t) B ++ S2 := by
  cases hM : splitLines M with
  | nil => exact absurd hM (splitLines_ne_nil M)
  | cons m ms =>
    have hlc : lineCount M = (ms.length : Int) := by
      unfold lineCount
      rw [hM, List.length_cons]
      push_cast
      ring
    cases ms with
    | nil =>
      have hlc0 : lineCount M = 0 := by rw [hlc]; rfl
      have hll0 : lastLineLen M = (m.length : Int) := by
        unfold lastLineLen
        rw [hM]
        rfl
      rw [hlc0, hll0]
      have hsp : spliceLinesInto A [m] B = [A ++ m ++ B] := rfl
      rw [hsp]
      rw [if_pos rfl]
      unfold applyEdit
      dsimp only
      rw [show ((S0.length : Int)).toNat = S0.length from by omega,
        show ((S0.length : Int) + 0).toNat = S0.length from by omega,
        show ((A.length : Int)).toNat = A.length from by omega,
        show ((A.length : Int) + (m.length : Int)).toNat = A.length + m.length from by
          omega]
      have hgd : (S0 ++ [A ++ m ++ B] ++ S2).getD S0.length [] = A ++ m ++ B := by
        apply getD_of_get?
        rw [List.append_assoc]
        exact get?_append_cons S0 (A ++ m ++ B) S2
      rw [hgd]
      have htk : (A ++ m ++ B).take A.length = A := by
        rw [List.append_assoc]
        exact List.take_left A (m ++ B)
      have hdp : (A ++ m ++ B).drop (A.length + m.length) = B := by
        refine List.drop_left' ?_
        simp
      rw [htk, hdp]
      have htk2 : (S0 ++ [A ++ m ++ B] ++ S2).take S0.length = S0 := by
        rw [List.append_assoc]
        exact List.take_left S0 _
      have hdp2 : (S0 ++ [A ++ m ++ B] ++ S2).drop (S0.length + 1) = S2 := by
        refine List.drop_left' ?_
        simp
      rw [htk2, hdp2]
    | cons y ys =>
      have hlcS : lineCount M = ((ys.length + 1 : Nat) : Int) := by
        rw [hlc, List.length_cons]
      have hne : lineCount M ≠ 0 := by
        rw [hlcS]
        omega
      have hll : lastLineLen M = ((ys.getLastD y).length : Int) := by
        unfold lastLineLen
        rw [hM, List.getLastD_cons, List.getLastD_cons]
      have hsp : spliceLinesInto A (m :: y :: ys) B
          = (A ++ m) :: ((y :: ys).dropLast ++ [(y :: ys).getLastD [] ++ B]) := rfl
      have hLL : (y :: ys).getLastD ([] : List Char) = ys.getLastD y :=
        List.getLastD_cons [] y ys
      rw [hsp, hLL, if_neg hne, hll, hlcS]
      unfold applyEdit
      dsimp only
      rw [show ((S0.length : Int)).toNat = S0.length from by omega,
        show ((S0.length : Int) + ((ys.length + 1 : Nat) : Int)).toNat
          = S0.length + (ys.length + 1) from by omega,
        show ((A.length : Int)).toNat = A.length from by omega,
        show ((0 : Int) + ((ys.getLastD y).length : Int)).toNat
          = (ys.getLastD y).length from by omega]
      have hgd1 : (S0 ++ ((A ++ m) ::
            ((y :: ys).dropLast ++ [ys.getLastD y ++ B])) ++ S2).getD S0.length []
          = A ++ m := by
        apply getD_of_get?
        rw [List.append_assoc]
        exact get?_append_cons S0 (A ++ m) _
      have hgd2 : (S0 ++ ((A ++ m) ::
            ((y :: ys).dropLast ++ [ys.getLastD y ++ B])) ++ S2).getD
            (S0.length + (ys.length + 1)) []
          = ys.getLastD y ++ B := by
        apply getD_of_get?
        rw [List.append_assoc,
          List.get?_append_right (by omega : S0.length ≤ S0.length + (ys.length + 1)),
          show S0.length + (ys.length + 1) - S0.length = ys.length + 1 from by omega]
        have hshape : ((A ++ m) :: ((y :: ys).dropLast ++ [ys.getLastD y ++ B])) ++ S2
            = (A ++ m) :: ((y :: ys).dropLast ++ ((ys.getLastD y ++ B) :: S2)) := by
          simp [List.append_assoc]
        rw [hshape, List.get?_cons_succ,
          show ys.length = (y :: ys).dropLast.length from by simp]
        exact get?_append_cons (y :: ys).dropLast (ys.getLastD y ++ B) S2
      rw [hgd1, hgd2]
      have htk : (A ++ m).take A.length = A := List.take_left A m
      have hdp : (ys.getLastD y ++ B).drop (ys.getLastD y).length = B :=
        List.drop_left (ys.getLastD y) B
      rw [htk, hdp]
      have htk2 : (S0 ++ ((A ++ m) ::
            ((y :: ys).dropLast ++ [ys.getLastD y ++ B])) ++ S2).take S0.length
          = S0 := by
        rw [List.append_assoc]
        exact List.take_left S0 _
      have hdp2 : (S0 ++ ((A ++ m) ::
            ((y :: ys).dropLast ++ [ys.getLastD y ++ B])) ++ S2).drop
            (S0.length + (ys.length + 1) + 1)
          = S2 := by
        refine List.drop_left' ?_
        simp only [List.length_append, List.length_cons, List.length_dropLast,
          List.length_nil]
        omega
      rw [htk2, hdp2]

/-- C4 (amended): the round trip is exact whenever the two swapped items are
separated in the source by exactly `", "` — no restriction on the items' own
shape: either item may span several lines.  First conjunct: move-left then
move-right.  The pivot `cN` at index `i` with predecessor `pN` occupies, with
the separator, a region of the buffer running from column `|A|` of line `|S0|`
to the end of text `pN.text ++ ", " ++ cN.text`; after splicing the returned
mod at the returned range and threading the returned cursor into the re-parsed
tree (whose corresponding items `xN`, `yN` carry the same texts at the
region's new layout), the move in the opposite direction returns the original
region text over the region's range, and splicing it back restores the
original buffer exactly.  Second conjunct: the mirror, move-right first. -/
theorem moveRoundtripRestores :
    (∀ (source1 source2 : List Char) (T T2 : SgNode) (cursor cursor2 : Pos)
       (P P2 : SgNode) (i j : Nat) (pN cN xN yN : SgNode)
       (S0 S2 : List (List Char)) (A B : List Char),
      findListParentAtCursorE T cursor = .ok (some P) →
      P.kind ≠ "binary_expression" → P.kind ≠ "ternary_expression" →
      (listItems P).findIdx?
        (fun item => cursorContains item.range cursor.line cursor.column) = some i →
      i ≠ 0 →
      (listItems P).get? (i - 1) = some pN →
      (listItems P).get? i = some cN →
      pN.range.start = ⟨(S0.length : Int), (A.length : Int)⟩ →
      cN.range.stop = ⟨(S0.length : Int) + lineCount (pN.text ++ (", ").data ++ cN.text),
        (if lineCount (pN.text ++ (", ").data ++ cN.text) = 0 then (A.length : Int) else 0)
          + lastLineLen (pN.text ++ (", ").data ++ cN.text)⟩ →
      cursor2 = applyCursorOffset pN.range.start
        (calculateCursorOffset cursor.line cursor.column cN.range.start) →
      findListParentAtCursorE T2 cursor2 = .ok (some P2) →
      P2.kind ≠ "binary_expression" → P2.kind ≠ "ternary_expression" →
      (listItems P2).findIdx?
        (fun item => cursorContains item.range cursor2.line cursor2.column) = some j →
      (listItems P2).get? j = some xN →
      (listItems P2).get? (j + 1) = some yN →
      xN.text = cN.text → yN.text = pN.text →
      xN.range.start = ⟨(S0.length : Int), (A.length : Int)⟩ →
      yN.range.stop = ⟨(S0.length : Int) + lineCount (cN.text ++ (", ").data ++ pN.text),
        (if lineCount (cN.text ++ (", ").data ++ pN.text) = 0 then (A.length : Int) else 0)
          + lastLineLen (cN.text ++ (", ").data ++ pN.text)⟩ →
      (handleMoveNode source1 T cursor Direction.left
          = .ok { mod := cN.text ++ (", ").data ++ pN.text,
                  original_source := source1,
                  original_range := ⟨pN.range.start, cN.range.stop⟩,
                  cursor := some cursor2, clipboard := none, source := none }) ∧
        applyEdit
            (S0 ++ spliceLinesInto A (splitLines (pN.text ++ (", ").data ++ cN.text)) B
              ++ S2)
            ⟨pN.range.start, cN.range.stop⟩
            (splitLines (cN.text ++ (", ").data ++ pN.text))
          = S0 ++ spliceLinesInto A (splitLines (cN.text ++ (", ").data ++ pN.text)) B
              ++ S2 ∧
        (∃ cur3, handleMoveNode source2 T2 cursor2 Direction.right
          = .ok { mod := pN.text ++ (", ").data ++ cN.text,
                  original_source := source2,
                  original_range := ⟨xN.range.start, yN.range.stop⟩,
                  cursor := cur3, clipboard := none, source := none }) ∧
        applyEdit
            (S0 ++ spliceLinesInto A (splitLines (cN.text ++ (", ").data ++ pN.text)) B
              ++ S2)
            ⟨xN.range.start, yN.range.stop⟩
            (splitLines (pN.text ++ (", ").data ++ cN.text))
          = S0 ++ spliceLinesInto A (splitLines (pN.text ++ (", ").data ++ cN.text)) B
              ++ S2) ∧
    (∀ (source1 source2 : List Char) (T T2 : SgNode) (cursor cursor2 : Pos)
       (P P2 : SgNode) (j i : Nat) (xN yN pN cN : SgNode)
       (S0 S2 : List (List Char)) (A B : List Char),
      findListParentAtCursorE T cursor = .ok (some P) →
      P.kind ≠ "binary_expression" → P.kind ≠ "ternary_expression" →
      (listItems P).findIdx?
        (fun item => cursorContains item.range cursor.line cursor.column) = some j →
      (listItems P).get? j = some xN →
      (listItems P).get? (j + 1) = some yN →
      xN.range.start = ⟨(S0.length : Int), (A.length : Int)⟩ →
      yN.range.stop = ⟨(S0.length : Int) + lineCount (xN.text ++ (", ").data ++ yN.text),
        (if lineCount (xN.text ++ (", ").data ++ yN.text) = 0 then (A.length : Int) else 0)
          + lastLineLen (xN.text ++ (", ").data ++ yN.text)⟩ →
      cursor2 = moveRightNewCursor cursor.line cursor.column xN.range.start yN.text →
      findListParentAtCursorE T2 cursor2 = .ok (some P2) →
      P2.kind ≠ "binary_expression" → P2.kind ≠ "ternary_expression" →
      (listItems P2).findIdx?
        (fun item => cursorContains item.range cursor2.line cursor2.column) = some i →
      i ≠ 0 →
      (listItems P2).get? (i - 1) = some pN →
      (listItems P2).get? i = some cN →
      pN.text = yN.text → cN.text = xN.text →
      pN.range.start = ⟨(S0.length : Int), (A.length : Int)⟩ →
      cN.range.stop = ⟨(S0.length : Int) + lineCount (yN.text ++ (", ").data ++ xN.text),
        (if lineCount (yN.text ++ (", ").data ++ xN.text) = 0 then (A.length : Int) else 0)
          + lastLineLen (yN.text ++ (", ").data ++ xN.text)⟩ →
      (handleMoveNode source1 T cursor Direction.right
          = .ok { mod := yN.text ++ (", ").data ++ xN.text,
                  original_source := source1,
                  original_range := ⟨xN.range.start, yN.range.stop⟩,
                  cursor := some cursor2, clipboard := none, source := none }) ∧
        applyEdit
            (S0 ++ spliceLinesInto A (splitLines (xN.text ++ (", ").data ++ yN.text)) B
              ++ S2)
            ⟨xN.range.start, yN.range.stop⟩
            (splitLines (yN.text ++ (", ").data ++ xN.text))
          = S0 ++ spliceLinesInto A (splitLines (yN.text ++ (", ").data ++ xN.text)) B
              ++ S2 ∧
        (∃ cur3, handleMoveNode source2 T2 cursor2 Direction.left
          = .ok { mod := xN.text ++ (", ").data ++ yN.text,
                  original_source := source2,
                  original_range := ⟨pN.range.start, cN.range.stop⟩,
                  cursor := cur3, clipboard := none, source := none }) ∧
        applyEdit
            (S0 ++ spliceLinesInto A (splitLines (yN.text ++ (", ").data ++ xN.text)) B
              ++ S2)
            ⟨pN.range.start, cN.range.stop⟩
            (splitLines (xN.text ++ (", ").data ++ yN.text))
          = S0 ++ spliceLinesInto A (splitLines (xN.text ++ (", ").data ++ yN.text)) B
              ++ S2) := by
  constructor
  · intro source1 source2 T T2 cursor cursor2 P P2 i j pN cN xN yN S0 S2 A B
    intro hP hb ht hi hi0 hprev hcurr hpStart hcStop hcur2
    intro hP2 hb2 ht2 hj hxN hyN hxT hyT hxStart hyStop
    refine ⟨?_, ?_, ?_, ?_⟩
    · rw [hcur2, handleMoveNode_eq_moveList source1 T cursor Direction.left P hP hb ht]
      exact moveList_left_eq source1 cursor.line cursor.column P i pN cN hi hi0 hprev hcurr
    · rw [hpStart, hcStop]
      exact applyEdit_region S0 S2 A B (pN.text ++ (", ").data ++ cN.text)
        (cN.text ++ (", ").data ++ pN.text)
    · have h := moveList_right_eq source2 cursor2.line cursor2.column P2 j xN yN hj hxN hyN
      rw [hyT, hxT] at h
      rw [handleMoveNode_eq_moveList source2 T2 cursor2 Direction.right P2 hP2 hb2 ht2]
      exact ⟨_, h⟩
    · rw [hxStart, hyStop]
      exact applyEdit_region S0 S2 A B (cN.text ++ (", ").data ++ pN.text)
        (pN.text ++ (", ").data ++ cN.text)
  · intro source1 source2 T T2 cursor cursor2 P P2 j i xN yN pN cN S0 S2 A B
    intro hP hb ht hj hxN hyN hxStart hyStop hcur2
    intro hP2 hb2 ht2 hi hi0 hprev hcurr hpT hcT hpStart hcStop
    refine ⟨?_, ?_, ?_, ?_⟩
    · rw [hcur2, handleMoveNode_eq_moveList source1 T cursor Direction.right P hP hb ht]
      exact moveList_right_eq source1 cursor.line cursor.column P j xN yN hj hxN hyN
    · rw [hxStart, hyStop]
      exact applyEdit_region S0 S2 A B (xN.text ++ (", ").data ++ yN.text)
        (yN.text ++ (", ").data ++ xN.text)
    · have h := moveList_left_eq source2 cursor2.line cursor2.column P2 i pN cN hi hi0
        hprev hcurr
      rw [hcT, hpT] at h
      rw [handleMoveNode_eq_moveList source2 T2 cursor2 Direction.left P2 hP2 hb2 ht2]
      exact ⟨_, h⟩
    · rw [hpStart, hcStop]
      exact applyEdit_region S0 S2 A B (yN.text ++ (", ").data ++ xN.text)
        (xN.text ++ (", ").data ++ yN.text)

/-- The three items of the argument list of `f(a, g(1,\n2), c)` — the middle
item is a call whose own argument list spans two lines. -/
def mgItemA : SgNode := .mk "identifier" ⟨⟨0, 2⟩, ⟨0, 3⟩⟩ "a".data []

def mgCall : SgNode :=
  .mk "call_expression" ⟨⟨0, 5⟩, ⟨1, 2⟩⟩ "g(1,\n2)".data
    [.mk "identifier" ⟨⟨0, 5⟩, ⟨0, 6⟩⟩ "g".data [],
     .mk "arguments" ⟨⟨0, 6⟩, ⟨1, 2⟩⟩ "(1,\n2)".data
       [.mk "(" ⟨⟨0, 6⟩, ⟨0, 7⟩⟩ "(".data [],
        .mk "number" ⟨⟨0, 7⟩, ⟨0, 8⟩⟩ "1".data [],
        .mk "," ⟨⟨0, 8⟩, ⟨0, 9⟩⟩ ",".data [],
        .mk "number" ⟨⟨1, 0⟩, ⟨1, 1⟩⟩ "2".data [],
        .mk ")" ⟨⟨1, 1⟩, ⟨1, 2⟩⟩ ")".data []]]

def mgItemC : SgNode := .mk "identifier" ⟨⟨1, 4⟩, ⟨1, 5⟩⟩ "c".data []

/-- Concrete syntax tree of the two-line source `f(a, g(1,\n2), c)`. -/
def mgArguments : SgNode :=
  .mk "arguments" ⟨⟨0, 1⟩, ⟨1, 6⟩⟩ "(a, g(1,\n2), c)".data
    [.mk "(" ⟨⟨0, 1⟩, ⟨0, 2⟩⟩ "(".data [],
     mgItemA,
     .mk "," ⟨⟨0, 3⟩, ⟨0, 4⟩⟩ ",".data [],
     mgCall,
     .mk "," ⟨⟨1, 2⟩, ⟨1, 3⟩⟩ ",".data [],
     mgItemC,
     .mk ")" ⟨⟨1, 5⟩, ⟨1, 6⟩⟩ ")".data []]

def mgProgram : SgNode :=
  .mk "program" ⟨⟨0, 0⟩, ⟨1, 6⟩⟩ "f(a, g(1,\n2), c)".data
    [.mk "expression_statement" ⟨⟨0, 0⟩, ⟨1, 6⟩⟩ "f(a, g(1,\n2), c)".data
      [.mk "call_expression" ⟨⟨0, 0⟩, ⟨1, 6⟩⟩ "f(a, g(1,\n2), c)".data
        [.mk "identifier" ⟨⟨0, 0⟩, ⟨0, 1⟩⟩ "f".data [],
         mgArguments]]]

/-- Concrete syntax tree of `f(g(1,\n2), a, c)`, the source produced by
splicing the move-left edit into `f(a, g(1,\n2), c)`. -/
def mgCall2 : SgNode :=
  .mk "call_expression" ⟨⟨0, 2⟩, ⟨1, 2⟩⟩ "g(1,\n2)".data
    [.mk "identifier" ⟨⟨0, 2⟩, ⟨0, 3⟩⟩ "g".data [],
     .mk "arguments" ⟨⟨0, 3⟩, ⟨1, 2⟩⟩ "(1,\n2)".data
       [.mk "(" ⟨⟨0, 3⟩, ⟨0, 4⟩⟩ "(".data [],
        .mk "number" ⟨⟨0, 4⟩, ⟨0, 5⟩⟩ "1".data [],
        .mk "," ⟨⟨0, 5⟩, ⟨0, 6⟩⟩ ",".data [],
        .mk "number" ⟨⟨1, 0⟩, ⟨1, 1⟩⟩ "2".data [],
        .mk ")" ⟨⟨1, 1⟩, ⟨1, 2⟩⟩ ")".data []]]

def mgItemA2 : SgNode := .mk "identifier" ⟨⟨1, 4⟩, ⟨1, 5⟩⟩ "a".data []

def mgArguments2 : SgNode :=
  .mk "arguments" ⟨⟨0, 1⟩, ⟨1, 9⟩⟩ "(g(1,\n2), a, c)".data
    [.mk "(" ⟨⟨0, 1⟩, ⟨0, 2⟩⟩ "(".data [],
     mgCall2,
     .mk "," ⟨⟨1, 2⟩, ⟨1, 3⟩⟩ ",".data [],
     mgItemA2,
     .mk "," ⟨⟨1, 5⟩, ⟨1, 6⟩⟩ ",".data [],
     .mk "identifier" ⟨⟨1, 7⟩, ⟨1, 8⟩⟩ "c".data [],
     .mk ")" ⟨⟨1, 8⟩, ⟨1, 9⟩⟩ ")".data []]

def mgProgram2 : SgNode :=
  .mk "program" ⟨⟨0, 0⟩, ⟨1, 9⟩⟩ "f(g(1,\n2), a, c)".data
    [.mk "expression_statement" ⟨⟨0, 0⟩, ⟨1, 9⟩⟩ "f(g(1,\n2), a, c)".data
      [.mk "call_expression" ⟨⟨0, 0⟩, ⟨1, 9⟩⟩ "f(g(1,\n2), a, c)".data
        [.mk "identifier" ⟨⟨0, 0⟩, ⟨0, 1⟩⟩ "f".data [],
         mgArguments2]]]

theorem moveRoundtripRestoresWitness :
    (handleMoveNode ("f(a, g(1,\n2), c)".data) mgProgram ⟨0, 5⟩ Direction.left
        = .ok { mod := mgCall.text ++ (", ").data ++ mgItemA.text,
                original_source := "f(a, g(1,\n2), c)".data,
                original_range := ⟨mgItemA.range.start, mgCall.range.stop⟩,
                cursor := some ⟨0, 2⟩, clipboard := none, source := none }) ∧
      applyEdit
          ([] ++ spliceLinesInto ("f(".data)
            (splitLines (mgItemA.text ++ (", ").data ++ mgCall.text)) (", c)".data)
            ++ [])
          ⟨mgItemA.range.start, mgCall.range.stop⟩
          (splitLines (mgCall.text ++ (", ").data ++ mgItemA.text))
        = [] ++ spliceLinesInto ("f(".data)
            (splitLines (mgCall.text ++ (", ").data ++ mgItemA.text)) (", c)".data)
            ++ [] ∧
      (∃ cur3, handleMoveNode ("f(g(1,\n2), a, c)".data) mgProgram2 ⟨0, 2⟩
          Direction.right
        = .ok { mod := mgItemA.text ++ (", ").data ++ mgCall.text,
                original_source := "f(g(1,\n2), a, c)".data,
                original_range := ⟨mgCall2.range.start, mgItemA2.range.stop⟩,
                cursor := cur3, clipboard := none, source := none }) ∧
      applyEdit
          ([] ++ spliceLinesInto ("f(".data)
            (splitLines (mgCall.text ++ (", ").data ++ mgItemA.text)) (", c)".data)
            ++ [])
          ⟨mgCall2.range.start, mgItemA2.range.stop⟩
          (splitLines (mgItemA.text ++ (", ").data ++ mgCall.text))
        = [] ++ spliceLinesInto ("f(".data)
            (splitLines (mgItemA.text ++ (", ").data ++ mgCall.text)) (", c)".data)
            ++ [] :=
  moveRoundtripRestores.1 ("f(a, g(1,\n2), c)".data) ("f(g(1,\n2), a, c)".data)
    mgProgram mgProgram2 ⟨0, 5⟩ ⟨0, 2⟩ mgArguments mgArguments2 1 0
    mgItemA mgCall mgCall2 mgItemA2 [] [] ("f(".data) (", c)".data)
    rfl (by decide) (by decide) rfl (by decide) rfl rfl (by decide) (by decide)
    (by decide) rfl (by decide) (by decide) rfl rfl rfl rfl rfl (by decide)
    (by decide)

end ModFlow
